import Mathlib

/-!
# Verification of the macro/assembly engine of `marketplace_server.py`

A shallow embedding of the execution engine (`MacroEngine`) of the
repository's single source file.  Python strings are Lean `String`s, but all
string operations are re-implemented over the underlying character list
(`String.data`) so that every definition evaluates inside the kernel.

The embedding covers:
* the data model (`Value`, context dictionary, `Step`, loop frames);
* Python `str.format(**context)` restricted to the simple replacement fields
  (`{name}`) this program uses, plus the engine's surrounding guard and
  exception swallowing (function `applyContext`, source lines 717-722);
* the component runner `run_macro_steps` (source lines 708-808);
* the adaptive wait `smart_wait` poll loop (source lines 484-512);
* the assembly interpreter `run_steps` (source lines 515-705), one
  `stepOnce` application per iteration of its `while` loop;
* the packaging operations `export_macro` / `import_macro` /
  `export_job` / `import_job` (source lines 233-460).

External effects (pyautogui, pyperclip, the screen, the file system) are
modelled as trace events and environment parameters, as noted at each
definition.
-/

set_option maxHeartbeats 1000000

namespace MarketplaceServer

/-- A Python value as it occurs in this program's execution context: either a
string (direct-input loop items, excel text cells) or an integer (count-loop
items `range(1, n+1)`, numeric excel cells). -/
inductive Value where
  | str (s : String)
  | num (n : Int)
deriving Repr, DecidableEq

/-- Python `str(v)`: identity on strings, decimal representation of ints. -/
def Value.toStr : Value → String
  | .str s => s
  | .num n => toString n

/-- The execution context `self.context`: a Python dict from variable name to
value, modelled as an association list in insertion order (Python dicts
preserve insertion order; assignment to an existing key keeps its slot). -/
abbrev Ctx := List (String × Value)

/-- Dict lookup `c.get(k)` / `k in c`. -/
def ctxGet (c : Ctx) (k : String) : Option Value :=
  match c with
  | [] => none
  | (k', v) :: rest => if k' == k then some v else ctxGet rest k

/-- Dict assignment `c[k] = v`: overwrite in place, or append a new binding. -/
def ctxSet (c : Ctx) (k : String) (v : Value) : Ctx :=
  match c with
  | [] => [(k, v)]
  | (k', v') :: rest => if k' == k then (k, v) :: rest else (k', v') :: ctxSet rest k v

/-- Dict merge `c.update(kvs)` (used for keyed excel records). -/
def ctxUpdate (c : Ctx) (kvs : List (String × Value)) : Ctx :=
  kvs.foldl (fun a p => ctxSet a p.1 p.2) c

/-- A step as stored in the JSON documents: `{"type": ..., "value": ...}`.
Dispatch in the source is on the raw `type` string, so the embedding keeps it
as a string as well. -/
structure Step where
  type : String
  value : String
deriving Repr, DecidableEq

/-- The default used for out-of-range indexing (never reached on the guarded
paths, mirroring that Python would raise instead). -/
def stepDefault : Step := ⟨"", ""⟩

/- ## Character-level re-implementations of the Python string operations.
Lean core's `String` functions do not reduce in the kernel, so each operation
the source uses is defined over `String.data`. -/

/-- Rebuild a string from characters. -/
def ofChars (l : List Char) : String := String.mk l

/-- Python `s.lower()` (ASCII case folding, which is all the source needs for
its `.xlsx` / `.xls` suffix tests). -/
def pyLower (s : String) : String := ofChars (s.data.map Char.toLower)

/-- Python `s.endswith(suffix)`. -/
def pyEndsWith (s suffix : String) : Bool := suffix.data.isSuffixOf s.data

/-- The spreadsheet-path test of `joint_start`:
`sval.lower().endswith(".xlsx") or sval.lower().endswith(".xls")`. -/
def isExcelPath (s : String) : Bool :=
  pyEndsWith (pyLower s) ".xlsx" || pyEndsWith (pyLower s) ".xls"

/-- Python `s.isdigit()` (ASCII digits; the engine builds count loops from
such strings). -/
def pyIsDigit (s : String) : Bool := !s.data.isEmpty && s.data.all Char.isDigit

/-- Decimal value of a digit string, i.e. Python `int(s)` on the `isdigit`
branch. -/
def digitsToNat (l : List Char) : Nat := l.foldl (fun a c => a * 10 + (c.toNat - 48)) 0

/-- Python `int(sval)` for the count-loop branch. -/
def pyInt (s : String) : Nat := digitsToNat s.data

/-- Python `s.split("\n")` (keeps empty pieces). -/
def splitNl : List Char → List (List Char)
  | [] => [[]]
  | '\n' :: rest => [] :: splitNl rest
  | c :: rest =>
    match splitNl rest with
    | [] => [[c]]
    | g :: gs => (c :: g) :: gs

/-- Python `s.strip()` on a character list. -/
def stripChars (l : List Char) : List Char :=
  ((l.dropWhile Char.isWhitespace).reverse.dropWhile Char.isWhitespace).reverse

/-- Python `s.strip()`. -/
def pyStrip (s : String) : String := ofChars (stripChars s.data)

/-- Python `c in s` for a single character. -/
def pyContainsChar (s : String) (c : Char) : Bool := s.data.contains c

/-- Python `"\x7bi\x7d" in sval`: does the text contain the three-character
substring used by the enter-text fast path? -/
def containsIVar : List Char → Bool
  | '{' :: 'i' :: '}' :: _ => true
  | _ :: rest => containsIVar rest
  | [] => false

/-- Python `sval.replace("\x7bi\x7d", rep)`: left-to-right, non-overlapping. -/
def replaceIVar (rep : List Char) : List Char → List Char
  | '{' :: 'i' :: '}' :: rest => rep ++ replaceIVar rep rest
  | c :: rest => c :: replaceIVar rep rest
  | [] => []

/-- Concatenation of a list of strings (kernel-reducible `String.join`). -/
def concatStrs : List String → String
  | [] => ""
  | s :: rest => s ++ concatStrs rest

/- ## Python `str.format(**context)`

`run_macro_steps` resolves `\x7bname\x7d` placeholders with
`sval.format(**self.context)` inside `try/except` (source lines 717-722).
The model tokenizes the template exactly as CPython's parser does on the
subset this program uses: literal text, `\x7b\x7b` / `\x7d\x7d` escapes, and
simple named fields.  Any construct outside that subset (empty or positional
fields, conversions `!`, format specs `:`, attribute/index access, unmatched
braces) is mapped to `none`, which the engine's `except Exception: pass`
turns into "leave the text unchanged" - the same observable outcome CPython
gives there (IndexError/ValueError/KeyError are all swallowed). -/

/-- One token of a format template. -/
inductive FTok where
  | lit (s : String)
  | field (name : String)
deriving Repr, DecidableEq

mutual

/-- Tokenize a format template (see section comment). -/
def scanToks : List Char → Option (List FTok)
  | [] => some []
  | '{' :: '{' :: rest => (scanToks rest).map (fun ts => .lit "\x7b" :: ts)
  | '{' :: rest => scanField [] rest
  | '}' :: '}' :: rest => (scanToks rest).map (fun ts => .lit "\x7d" :: ts)
  | '}' :: _ => none
  | c :: rest => (scanToks rest).map (fun ts => .lit (ofChars [c]) :: ts)

/-- Scan the inside of a replacement field up to its closing brace. -/
def scanField (acc : List Char) : List Char → Option (List FTok)
  | [] => none
  | '}' :: rest => (scanToks rest).map (fun ts => .field (ofChars acc) :: ts)
  | c :: rest => scanField (acc ++ [c]) rest

end

/-- A field name this model resolves: a non-empty, non-numeric name free of
conversion/spec/attribute syntax - i.e. a plain `\x7bname\x7d` placeholder. -/
def fieldNameOk (name : String) : Bool :=
  !name.data.isEmpty && !pyIsDigit name &&
    name.data.all (fun c => !([':', '!', '.', '[', ']', '{'].contains c))

/-- Resolve one replacement field against the context.  A digit-only or empty
name is positional (IndexError with no positional args); a missing key is a
KeyError; both surface as `none`. -/
def evalField (c : Ctx) (name : String) : Option String :=
  if fieldNameOk name then (ctxGet c name).map Value.toStr
  else none

/-- Render a token list; `none` models the exception CPython raises. -/
def renderToks (c : Ctx) : List FTok → Option String
  | [] => some ""
  | .lit t :: rest => (renderToks c rest).map (fun r => t ++ r)
  | .field f :: rest =>
    match evalField c f with
    | some v => (renderToks c rest).map (fun r => v ++ r)
    | none => none

/-- `sval.format(**context)`, `none` when it raises. -/
def pyFormat (c : Ctx) (s : String) : Option String :=
  match scanToks s.data with
  | some ts => renderToks c ts
  | none => none

/-- Source lines 717-722: substitute only when the value contains both braces,
and fall back to the original text when `format` raises. -/
def applyContext (c : Ctx) (s : String) : String :=
  if pyContainsChar s '{' && pyContainsChar s '}' then
    match pyFormat c s with
    | some r => r
    | none => s
  else s

/-- Spec-side reading of one token: a literal stays, a placeholder becomes its
context value. -/
def substTok (c : Ctx) : FTok → String
  | .lit t => t
  | .field f => ((ctxGet c f).getD (.str "")).toStr

/-- The field names referenced by a template's tokens. -/
def fieldsOf (ts : List FTok) : List String :=
  ts.filterMap (fun t => match t with | .field f => some f | _ => none)

theorem fieldsOf_lit (t : String) (ts : List FTok) :
    fieldsOf (.lit t :: ts) = fieldsOf ts := rfl

theorem fieldsOf_field (f : String) (ts : List FTok) :
    fieldsOf (.field f :: ts) = f :: fieldsOf ts := rfl

theorem renderToks_all_bound (c : Ctx) (ts : List FTok)
    (h1 : ∀ f ∈ fieldsOf ts, fieldNameOk f = true)
    (h2 : ∀ f ∈ fieldsOf ts, (ctxGet c f).isSome = true) :
    renderToks c ts = some (concatStrs (ts.map (substTok c))) := by
  induction ts with
  | nil => rfl
  | cons t rest ih =>
    cases t with
    | lit s =>
      rw [fieldsOf_lit] at h1 h2
      simp [renderToks, ih h1 h2, List.map_cons, concatStrs, substTok]
    | field f =>
      rw [fieldsOf_field] at h1 h2
      have hname := h1 f (List.mem_cons_self f _)
      have hsome := h2 f (List.mem_cons_self f _)
      obtain ⟨v, hv⟩ := Option.isSome_iff_exists.mp hsome
      have h1' : ∀ g ∈ fieldsOf rest, fieldNameOk g = true :=
        fun g hg => h1 g (List.mem_cons_of_mem f hg)
      have h2' : ∀ g ∈ fieldsOf rest, (ctxGet c g).isSome = true :=
        fun g hg => h2 g (List.mem_cons_of_mem f hg)
      simp [renderToks, evalField, hname, hv, ih h1' h2', List.map_cons,
        concatStrs, substTok]

theorem renderToks_missing (c : Ctx) (ts : List FTok)
    (h : ∃ f ∈ fieldsOf ts, ctxGet c f = none) :
    renderToks c ts = none := by
  induction ts with
  | nil => simp [fieldsOf] at h
  | cons t rest ih =>
    cases t with
    | lit s =>
      rw [fieldsOf_lit] at h
      simp [renderToks, ih h]
    | field f =>
      rw [fieldsOf_field] at h
      cases hev : evalField c f with
      | none => simp [renderToks, hev]
      | some v =>
        have hf : ctxGet c f ≠ none := by
          intro hnone
          simp [evalField, hnone] at hev
        rcases h with ⟨g, hg, hgnone⟩
        rcases List.mem_cons.mp hg with hgf | hgr
        · exact absurd (hgf ▸ hgnone) hf
        · simp [renderToks, hev, ih ⟨g, hgr, hgnone⟩]

/-- **C5.** For a step value containing both `\x7b` and `\x7d`, the runner
formats it against the context: with every referenced placeholder bound, each
placeholder is replaced by its value; with any referenced key missing, the
original literal text is returned unchanged (the raised KeyError is
swallowed). -/
theorem C5_template_substitution (s : String) (c : Ctx) (ts : List FTok)
    (hb1 : pyContainsChar s '{' = true) (hb2 : pyContainsChar s '}' = true)
    (hscan : scanToks s.data = some ts) :
    ((∀ f ∈ fieldsOf ts, fieldNameOk f = true) →
      (∀ f ∈ fieldsOf ts, (ctxGet c f).isSome = true) →
      applyContext c s = concatStrs (ts.map (substTok c)))
    ∧ ((∃ f ∈ fieldsOf ts, ctxGet c f = none) → applyContext c s = s) := by
  constructor
  · intro h1 h2
    simp [applyContext, hb1, hb2, pyFormat, hscan, renderToks_all_bound c ts h1 h2]
  · intro h
    simp [applyContext, hb1, hb2, pyFormat, hscan, renderToks_missing c ts h]

theorem C5_witness :
    applyContext [("x", .str "5")] "{x}" = "5" ∧
    applyContext [] "{missing}" = "{missing}" := by
  constructor
  · exact ((C5_template_substitution "{x}" [("x", .str "5")] [.field "x"]
      (by decide) (by decide) (by decide)).1 (by decide) (by decide)).trans (by decide)
  · exact (C5_template_substitution "{missing}" [] [.field "missing"]
      (by decide) (by decide) (by decide)).2 (by decide)

/- ## Observable effects

The engine's side effects (keyboard shortcuts, clipboard writes, status
checks) are recorded as a trace.  `flagCheck` records each read of the shared
`self.is_running` flag; `visit` records one iteration of the `run_steps`
interpreter loop together with the context it observes; `dispatch` records
the component runner reaching a step (after template substitution);
`poll` records one screen comparison of `smart_wait`. -/

/-- One observable event. -/
inductive Event where
  | flagCheck (b : Bool)
  | visit (pc : Nat) (stype : String) (c : Ctx)
  | dispatch (idx : Nat) (atype : String) (sval : String)
  | selectAll
  | copyCombo
  | paste
  | copyClip (s : String)
  | keyPress (k : String)
  | openUrl (u : String)
  | poll (n : Nat) (changed : Bool)
deriving Repr, DecidableEq

/-- Effect state threaded through a run: how many times the cancellation flag
has been read (`checks`), how many smart-wait screen grabs happened (`polls`),
and the event trace so far. -/
structure Eff where
  checks : Nat
  polls : Nat
  events : List Event
deriving Repr, DecidableEq

/-- Append events to the trace. -/
def emit (e : Eff) (l : List Event) : Eff := { e with events := e.events ++ l }

/-- External collaborators, as pure oracles:
* `excel` models `os.path.exists` + `pd.read_excel(...).fillna("").to_dict("records")`
  (source lines 554-564): `none` when the file is missing or unreadable,
  otherwise the keyed records;
* `changed` models whether the screenshot of the n-th smart-wait poll differs
  from the baseline (`ImageChops.difference(...).getbbox()`, lines 500-503);
* `smartBudget` models how many polls fit into the timeout
  (`time.time() - start < timeout` with one `check_interval` sleep per poll,
  line 498) - real-time behaviour abstracted to a poll budget. -/
structure MEnv where
  excel : String → Option (List (List (String × Value)))
  changed : Nat → Bool
  smartBudget : Nat

/-- The poll loop of `smart_wait` (source lines 498-506): while time remains,
read the flag once (loop condition), sleep, grab a frame, and return as soon
as a difference is seen.  The flag is not read when the time budget is
already exhausted (Python's `and` short-circuit evaluates the time first). -/
def smartWaitGo (flag : Nat → Bool) (changed : Nat → Bool) : Nat → Eff → Eff
  | 0, eff => eff
  | budget + 1, eff =>
    let b := flag eff.checks
    let eff1 : Eff := { eff with checks := eff.checks + 1,
                                 events := eff.events ++ [.flagCheck b] }
    if b then
      let ch := changed eff1.polls
      let eff2 : Eff := { eff1 with polls := eff1.polls + 1,
                                    events := eff1.events ++ [.poll eff1.polls ch] }
      if ch then eff2 else smartWaitGo flag changed budget eff2
    else eff1

/-- One atomic dispatch of `run_macro_steps` (source lines 727-806), on the
already-substituted value `sval`.  The branches the claims inspect are spelled
out (`cmd_a`/`cmd_c`/`cmd_v`, `type`, `key`, `browser`, `smart_wait`); the
remaining kinds (`click`, `click_xy`, `right_click`, `drag`, `ocr_area`,
`wait`) only drive pyautogui/PIL and any exception they raise is swallowed by
the `except` at line 804, so their external effect is abstracted into the
`dispatch` event already recorded by the caller. -/
def execAtomic (env : MEnv) (flag : Nat → Bool) (c : Ctx) (atype sval : String)
    (eff : Eff) : Eff :=
  if atype == "cmd_a" then emit eff [.selectAll]
  else if atype == "cmd_c" then emit eff [.copyCombo]
  else if atype == "cmd_v" then emit eff [.paste]
  else if atype == "browser" then emit eff [.openUrl sval]
  else if atype == "type" then
    -- source lines 772-788: the fast-path test is on the substituted value
    if (ctxGet c "i").isSome && containsIVar sval.data then
      emit eff [.selectAll,
        .copyClip (ofChars (replaceIVar (((ctxGet c "i").getD (.str "")).toStr.data) sval.data)),
        .paste]
    else emit eff [.copyClip sval, .paste]
  else if atype == "key" then emit eff [.keyPress sval]
  else if atype == "smart_wait" then smartWaitGo flag env.changed env.smartBudget eff
  else eff

/-- The loop of `run_macro_steps` (source lines 709-808): per step, read the
cancellation flag (breaking when it is false), substitute the template, and
dispatch.  The runner never writes to the context. -/
def runMacroGo (env : MEnv) (flag : Nat → Bool) (c : Ctx) :
    List Step → Nat → Eff → Eff
  | [], _, eff => eff
  | step :: rest, idx, eff =>
    let b := flag eff.checks
    let eff1 : Eff := { eff with checks := eff.checks + 1,
                                 events := eff.events ++ [.flagCheck b] }
    if b then
      let sval := applyContext c step.value
      let eff2 : Eff := { eff1 with events := eff1.events ++ [.dispatch idx step.type sval] }
      runMacroGo env flag c rest (idx + 1) (execAtomic env flag c step.type sval eff2)
    else eff1

/-- `run_macro_steps` entry point. -/
def runMacroSteps (env : MEnv) (flag : Nat → Bool) (c : Ctx) (steps : List Step)
    (eff : Eff) : Eff :=
  runMacroGo env flag c steps 0 eff

/-- A run with no cancellation request. -/
def flagTrue : Nat → Bool := fun _ => true

/-- A concrete environment for witnesses: no spreadsheets, an unchanging
screen, no smart-wait budget. -/
def env0 : MEnv := ⟨fun _ => none, fun _ => false, 0⟩

/-- The effect state at the start of a run. -/
def eff0 : Eff := ⟨0, 0, []⟩

theorem applyContext_ivar (c : Ctx) (v : Value) (hi : ctxGet c "i" = some v) :
    applyContext c "{i}" = v.toStr := by
  have h1 : (pyContainsChar "{i}" '{' && pyContainsChar "{i}" '}') = true := by decide
  have hscan : scanToks ("{i}".data) = some [FTok.field "i"] := by decide
  have hok : fieldNameOk "i" = true := by decide
  simp [applyContext, h1, pyFormat, hscan, renderToks, evalField, hok, hi]

/-- **C3, counterexample.**  An enter-text step whose literal value is exactly
`"\x7bi\x7d"`, run with `i` bound to `"5"`, copies the substituted value and
pastes it with NO preceding select-all: the general template substitution at
source line 720 already rewrote the value, so the fast-path test
`"\x7bi\x7d" in sval` at line 774 fails. -/
theorem C3_counterexample :
    runMacroSteps env0 flagTrue [("i", .str "5")] [⟨"type", "{i}"⟩] eff0 =
      ⟨1, 0, [.flagCheck true, .dispatch 0 "type" "5", .copyClip "5", .paste]⟩ ∧
    Event.selectAll ∉
      (runMacroSteps env0 flagTrue [("i", .str "5")] [⟨"type", "{i}"⟩] eff0).events := by
  decide

/-- **C3, amended.**  When the component runner executes an enter-text step
whose literal value is exactly `"\x7bi\x7d"` and the context binds `i` (to a
value whose text does not itself contain `"\x7bi\x7d"`), the general template
substitution replaces the placeholder first, and the engine performs a plain
clipboard-copy of the substituted value followed by a paste, with no
preceding select-all. -/
theorem C3_fastpath_amended (env : MEnv) (flag : Nat → Bool) (c : Ctx) (v : Value)
    (eff : Eff) (idx : Nat)
    (hi : ctxGet c "i" = some v)
    (hnr : containsIVar (Value.toStr v).data = false)
    (hf : flag eff.checks = true) :
    runMacroGo env flag c [⟨"type", "{i}"⟩] idx eff =
      { eff with checks := eff.checks + 1,
                 events := eff.events ++
                   [.flagCheck true, .dispatch idx "type" v.toStr,
                    .copyClip v.toStr, .paste] } := by
  simp [runMacroGo, hf, applyContext_ivar c v hi, execAtomic, hi, hnr, emit]

theorem C3_fastpath_amended_witness :
    runMacroGo env0 flagTrue [("i", .str "7")] [⟨"type", "{i}"⟩] 0 eff0 =
      ⟨1, 0, [.flagCheck true, .dispatch 0 "type" "7", .copyClip "7", .paste]⟩ :=
  (C3_fastpath_amended env0 flagTrue [("i", .str "7")] (.str "7") eff0 0
    (by decide) (by decide) (by decide)).trans (by decide)

/- ## The assembly interpreter `run_steps` (source lines 515-705)

The interpreter walks the step list with an explicit program counter `i`,
a loop stack and the shared context.  One `stepOnce` application models one
evaluation of the `while` condition plus (when it holds) one iteration of the
loop body.  The Python loop stack is a list with its top at the end
(`append` / `[-1]` / `pop()`); the model keeps the top at the head, which
changes nothing observable. -/

/-- One loop item: a keyed excel record (`is_dict` frames) or a plain value
(count / direct-input frames). -/
inductive Item where
  | record (fields : List (String × Value))
  | val (v : Value)
deriving Repr, DecidableEq

/-- The record fields of a keyed item (keyed frames only hold `rec` items). -/
def Item.fields : Item → List (String × Value)
  | .record f => f
  | .val _ => []

/-- The plain value of an unkeyed item (unkeyed frames only hold `val` items;
the default is never reached). -/
def Item.asVal : Item → Value
  | .val v => v
  | .record _ => .str ""

/-- A loop frame, source line 576: `{"start": i, "data": data_list, "idx": 0,
"is_dict": is_dict, "level": len(loop_stack)}` (`level` is the stack depth
before the push). -/
structure LoopFrame where
  start : Nat
  data : List Item
  idx : Nat
  is_dict : Bool
  level : Nat
deriving Repr, DecidableEq

/-- `joint_start` data acquisition (source lines 548-571): a spreadsheet path
yields keyed records via the excel oracle, a digit string `n` yields the
unkeyed sequence `1..n`, anything else yields no data. -/
def jointStartData (env : MEnv) (sval : String) : List Item × Bool :=
  if isExcelPath sval then
    match env.excel sval with
    | some rows => (rows.map Item.record, true)
    | none => ([], false)
  else if pyIsDigit sval then
    ((List.range (pyInt sval)).map (fun k => Item.val (.num ((k : Int) + 1))), false)
  else ([], false)

/-- `joint_list` line splitting (source lines 602-606): strip the whole text,
split on newlines, strip each line, keep the non-empty ones. -/
def jointListLines (value : String) : List String :=
  let raw := stripChars value.data
  if raw.isEmpty then []
  else (((splitNl raw).map stripChars).filter (fun l => !l.isEmpty)).map ofChars

/-- Persisted part store `self.macros` / `self.jobs`: a name-to-steps dict. -/
def lookupStore {α : Type} (store : List (String × α)) (k : String) : Option α :=
  match store with
  | [] => none
  | (k', v) :: rest => if k' == k then some v else lookupStore rest k

/-- Interpreter state: program counter, shared context, loop stack, whether
the `while` loop is still live, and the effect trace. -/
structure EngineSt where
  pc : Nat
  context : Ctx
  loop_stack : List LoopFrame
  running : Bool
  eff : Eff
deriving Repr, DecidableEq

/-- The body of one `run_steps` iteration for the step under the program
counter (source lines 548-697), excluding the trailing `i += 1`. -/
def execJobStep (env : MEnv) (flag : Nat → Bool) (macros : List (String × List Step))
    (step : Step) (s : EngineSt) : EngineSt :=
  if step.type == "joint_start" then
    let d := jointStartData env step.value
    match d.1 with
    | [] => s   -- "no data to repeat": status message only (line 598)
    | item :: _ =>
      let fr : LoopFrame := ⟨s.pc, d.1, 0, d.2, s.loop_stack.length⟩
      let stack' := fr :: s.loop_stack
      let ctx' :=
        if d.2 then ctxUpdate s.context item.fields
        else if stack'.length > 1 then
          ctxSet (ctxSet s.context ("i" ++ toString stack'.length) item.asVal) "i" item.asVal
        else ctxSet s.context "i" item.asVal
      { s with loop_stack := stack', context := ctx' }
  else if step.type == "joint_list" then
    match jointListLines step.value with
    | [] => s   -- "no direct-input content": status message only (line 637)
    | first :: restLines =>
      let fr : LoopFrame :=
        ⟨s.pc, (first :: restLines).map (fun l => Item.val (.str l)), 0, false,
          s.loop_stack.length⟩
      let stack' := fr :: s.loop_stack
      let ctx' :=
        if stack'.length > 1 then
          ctxSet (ctxSet s.context ("i" ++ toString stack'.length) (.str first)) "i" (.str first)
        else ctxSet s.context "i" (.str first)
      -- lines 628-634: select-all, copy the first item, paste
      { s with loop_stack := stack', context := ctx',
               eff := emit s.eff [.selectAll, .copyClip first, .paste] }
  else if step.type == "joint_end" then
    match s.loop_stack with
    | [] => s   -- "loop end without start": status message only (line 686)
    | curr :: rest =>
      let idx' := curr.idx + 1
      if idx' < curr.data.length then
        let item := curr.data.getD idx' (Item.val (.str ""))
        let ctx' :=
          if curr.is_dict then ctxUpdate s.context item.fields
          else
            let base :=
              if curr.level > 0 then
                ctxSet s.context ("i" ++ toString (curr.level + 1)) item.asVal
              else s.context
            ctxSet base "i" item.asVal
        let eff' :=
          if curr.is_dict then s.eff
          else emit s.eff [.selectAll, .copyClip item.asVal.toStr, .paste]
        -- line 678: jump back; the interpreter's `i += 1` lands on start+1
        { s with loop_stack := { curr with idx := idx' } :: rest,
                 context := ctx', eff := eff', pc := curr.start }
      else
        { s with loop_stack := rest }   -- lines 680-681: exhausted, pop
  else if step.type == "call_macro" then
    match lookupStore macros step.value with
    | some msteps => { s with eff := runMacroSteps env flag s.context msteps s.eff }
    | none => s   -- unknown part: log and continue (line 697)
  else s   -- no branch for other step kinds: silently passed over

/-- One evaluation of the `while` condition (line 542) plus, when it holds,
one loop iteration.  The bound test comes first (Python's `and`
short-circuits), then the flag read; a state whose loop has exited is a fixed
point. -/
def stepOnce (env : MEnv) (flag : Nat → Bool) (macros : List (String × List Step))
    (steps : List Step) (s : EngineSt) : EngineSt :=
  if s.running = false then s
  else if steps.length ≤ s.pc then { s with running := false }
  else
    let b := flag s.eff.checks
    let eff1 : Eff := { s.eff with checks := s.eff.checks + 1,
                                   events := s.eff.events ++ [.flagCheck b] }
    if b = false then { s with running := false, eff := eff1 }
    else
      let step := steps.getD s.pc stepDefault
      let s1 := { s with
        eff := { eff1 with events := eff1.events ++ [.visit s.pc step.type s.context] } }
      let s2 := execJobStep env flag macros step s1
      { s2 with pc := s2.pc + 1 }

/-- `n` interpreter iterations. -/
def stepN (env : MEnv) (flag : Nat → Bool) (macros : List (String × List Step))
    (steps : List Step) (n : Nat) (s : EngineSt) : EngineSt :=
  (stepOnce env flag macros steps)^[n] s

/-- The state at `run_steps` entry: `i = 0`, `self.context = {}`, empty loop
stack, `self.is_running = True`, nothing observed yet. -/
def initSt : EngineSt := ⟨0, [], [], true, eff0⟩

/-- `run_steps` on a whole assembly: the empty list returns at once (line
520); otherwise run the interpreter loop (`fuel` iterations, every iteration
past loop exit being the identity).  The unbalanced-pair pre-check at lines
523-530 only emits a warning and is stateless. -/
def runAssembly (env : MEnv) (flag : Nat → Bool) (macros : List (String × List Step))
    (steps : List Step) (fuel : Nat) : EngineSt :=
  if steps.isEmpty then { initSt with running := false }
  else stepN env flag macros steps fuel initSt

/- ## C1: bindings observed by a two-level nested unkeyed loop body -/

/-- A two-level nested unkeyed assembly: outer direct-input items `A`, `B`;
inner direct-input items `1`, `2`; one body step between the inner pair. -/
def nestedProg : List Step :=
  [⟨"joint_list", "A\nB"⟩, ⟨"joint_list", "1\n2"⟩, ⟨"body", ""⟩,
   ⟨"joint_end", ""⟩, ⟨"joint_end", ""⟩]

/-- The `(i, i2)` context bindings observed at every visit of step `p`. -/
def bodyBindings (evs : List Event) (p : Nat) : List (Option Value × Option Value) :=
  evs.filterMap (fun e => match e with
    | .visit q _ c => if q == p then some (ctxGet c "i", ctxGet c "i2") else none
    | _ => none)

/-- **C1, counterexample.**  Running the two-level nested unkeyed loop with
outer items `[A,B]` and inner items `[1,2]`, the binding sequence observed by
the inner body is NOT `(i=A,i2=1) (i=A,i2=2) (i=B,i2=1) (i=B,i2=2)`: the
variable `i` does not hold the outer item during inner iterations. -/
theorem C1_counterexample :
    bodyBindings (runAssembly env0 flagTrue [] nestedProg 20).eff.events 2 ≠
      [(some (.str "A"), some (.str "1")), (some (.str "A"), some (.str "2")),
       (some (.str "B"), some (.str "1")), (some (.str "B"), some (.str "2"))] := by
  decide

/-- **C1, amended.**  With outer items `[A,B]` and inner items `[1,2]`, the
body runs four times and observes `(i=1,i2=1) (i=2,i2=2) (i=1,i2=1)
(i=2,i2=2)`: both loop starts and every unkeyed rebinding at `joint_end`
assign the current item to `i` as well (source lines 588, 618, 657), so `i`
mirrors the innermost loop's current item and the outer item is never visible
in `i` inside the inner body. -/
theorem C1_amended :
    bodyBindings (runAssembly env0 flagTrue [] nestedProg 20).eff.events 2 =
      [(some (.str "1"), some (.str "1")), (some (.str "2"), some (.str "2")),
       (some (.str "1"), some (.str "1")), (some (.str "2"), some (.str "2"))] ∧
    (runAssembly env0 flagTrue [] nestedProg 20).running = false := by
  decide

/- ## Trace bookkeeping

`visit` events are emitted only by the interpreter loop, one per iteration,
so counting them counts how often each step position is executed. -/

/-- A step that is none of the three loop-control kinds: the interpreter
either dispatches it (`call_macro`) or passes over it; in both cases the
program counter just advances and context, loop stack and liveness are
untouched. -/
def isPlain (st : Step) : Bool :=
  st.type != "joint_start" && st.type != "joint_list" && st.type != "joint_end"

/-- How many times the interpreter visited step position `k`. -/
def countVisits (evs : List Event) (k : Nat) : Nat :=
  evs.countP (fun e => match e with | .visit p _ _ => p == k | _ => false)

/-- Events that are not interpreter visits. -/
def visitFree (evs : List Event) : Bool :=
  evs.all (fun e => match e with | .visit _ _ _ => false | _ => true)

theorem countVisits_append (a b : List Event) (k : Nat) :
    countVisits (a ++ b) k = countVisits a k + countVisits b k :=
  List.countP_append _ _ _

theorem countVisits_nil (k : Nat) : countVisits [] k = 0 := rfl

theorem visitFree_count (evs : List Event) (h : visitFree evs = true) (k : Nat) :
    countVisits evs k = 0 := by
  induction evs with
  | nil => rfl
  | cons e rest ih =>
    rw [visitFree, List.all_cons, Bool.and_eq_true] at h
    obtain ⟨he, hrest⟩ := h
    have hr : countVisits rest k = 0 := ih hrest
    rw [countVisits, List.countP_cons] at *
    cases e <;> simp_all [countVisits]

theorem visitFree_append (a b : List Event) :
    visitFree (a ++ b) = (visitFree a && visitFree b) := by
  simp [visitFree, List.all_append]

/-- `b` extends `a`'s trace by non-visit events only (the store of any
component-runner or smart-wait activity). -/
def EffExt (a b : Eff) : Prop :=
  ∃ t, b.events = a.events ++ t ∧ visitFree t = true

theorem EffExt.refl' (a : Eff) : EffExt a a := ⟨[], by simp, rfl⟩

theorem EffExt.trans' {a b c : Eff} (h1 : EffExt a b) (h2 : EffExt b c) :
    EffExt a c := by
  obtain ⟨t1, he1, hv1⟩ := h1
  obtain ⟨t2, he2, hv2⟩ := h2
  refine ⟨t1 ++ t2, by rw [he2, he1, List.append_assoc], ?_⟩
  rw [visitFree_append, hv1, hv2]
  rfl

theorem EffExt.ofEvents (a b : Eff) (t : List Event)
    (h : b.events = a.events ++ t) (hv : visitFree t = true) : EffExt a b :=
  ⟨t, h, hv⟩

theorem EffExt.ofEmit (a : Eff) (t : List Event) (h : visitFree t = true) :
    EffExt a (emit a t) := ⟨t, rfl, h⟩

theorem smartWaitGo_ext (flag changed : Nat → Bool) (n : Nat) (eff : Eff) :
    EffExt eff (smartWaitGo flag changed n eff) := by
  induction n generalizing eff with
  | zero => exact EffExt.refl' eff
  | succ m ih =>
    simp only [smartWaitGo]
    by_cases hb : flag eff.checks = true
    · rw [if_pos hb]
      by_cases hc : changed eff.polls = true
      · rw [if_pos hc]
        exact EffExt.ofEvents _ _
          [.flagCheck (flag eff.checks), .poll eff.polls (changed eff.polls)]
          (by simp) rfl
      · rw [if_neg hc]
        refine EffExt.trans' ?_ (ih _)
        exact EffExt.ofEvents _ _
          [.flagCheck (flag eff.checks), .poll eff.polls (changed eff.polls)]
          (by simp) rfl
    · rw [if_neg hb]
      exact EffExt.ofEvents _ _ [.flagCheck (flag eff.checks)] (by simp) rfl

theorem execAtomic_ext (env : MEnv) (flag : Nat → Bool) (c : Ctx)
    (atype sval : String) (eff : Eff) :
    EffExt eff (execAtomic env flag c atype sval eff) := by
  rw [execAtomic]
  repeat' split
  all_goals first
    | exact EffExt.ofEmit _ _ rfl
    | exact smartWaitGo_ext _ _ _ _
    | exact EffExt.refl' _

theorem runMacroGo_ext (env : MEnv) (flag : Nat → Bool) (c : Ctx)
    (l : List Step) (idx : Nat) (eff : Eff) :
    EffExt eff (runMacroGo env flag c l idx eff) := by
  induction l generalizing idx eff with
  | nil => exact EffExt.refl' eff
  | cons step rest ih =>
    simp only [runMacroGo]
    by_cases hb : flag eff.checks = true
    · rw [if_pos hb]
      refine EffExt.trans' ?_ (ih (idx + 1) _)
      refine EffExt.trans' ?_ (execAtomic_ext _ _ _ _ _ _)
      exact EffExt.ofEvents _ _
        [.flagCheck (flag eff.checks), .dispatch idx step.type (applyContext c step.value)]
        (by simp) rfl
    · rw [if_neg hb]
      exact EffExt.ofEvents _ _ [.flagCheck (flag eff.checks)] (by simp) rfl
/- ## Scenario equations for one interpreter iteration -/

theorem stepOnce_not_running (env : MEnv) (flag : Nat → Bool)
    (macros : List (String × List Step)) (steps : List Step) (s : EngineSt)
    (h : s.running = false) : stepOnce env flag macros steps s = s := by
  simp [stepOnce, h]

theorem stepOnce_done (env : MEnv) (flag : Nat → Bool)
    (macros : List (String × List Step)) (steps : List Step) (s : EngineSt)
    (h1 : s.running = true) (h2 : steps.length ≤ s.pc) :
    stepOnce env flag macros steps s = { s with running := false } := by
  simp [stepOnce, h1, h2]

theorem stepOnce_cancel (env : MEnv) (flag : Nat → Bool)
    (macros : List (String × List Step)) (steps : List Step) (s : EngineSt)
    (h1 : s.running = true) (h2 : s.pc < steps.length)
    (h3 : flag s.eff.checks = false) :
    stepOnce env flag macros steps s =
      { s with running := false,
               eff := ⟨s.eff.checks + 1, s.eff.polls,
                       s.eff.events ++ [.flagCheck false]⟩ } := by
  have hn : ¬ (steps.length ≤ s.pc) := Nat.not_le.mpr h2
  simp [stepOnce, h1, hn, h3]

theorem stepOnce_run (env : MEnv) (flag : Nat → Bool)
    (macros : List (String × List Step)) (steps : List Step) (s : EngineSt)
    (h1 : s.running = true) (h2 : s.pc < steps.length)
    (h3 : flag s.eff.checks = true) :
    stepOnce env flag macros steps s =
      (fun s2 => { s2 with pc := s2.pc + 1 })
        (execJobStep env flag macros (steps.getD s.pc stepDefault)
          { s with eff := ⟨s.eff.checks + 1, s.eff.polls,
              s.eff.events ++ [.flagCheck true,
                .visit s.pc (steps.getD s.pc stepDefault).type s.context]⟩ }) := by
  have hn : ¬ (steps.length ≤ s.pc) := Nat.not_le.mpr h2
  simp [stepOnce, h1, hn, h3]

theorem execJob_plain (env : MEnv) (flag : Nat → Bool)
    (macros : List (String × List Step)) (st : Step) (s : EngineSt)
    (h : isPlain st = true) :
    ∃ e', execJobStep env flag macros st s = { s with eff := e' } ∧
      EffExt s.eff e' := by
  rw [isPlain, Bool.and_eq_true, Bool.and_eq_true] at h
  obtain ⟨⟨h1, h2⟩, h3⟩ := h
  rw [bne_iff_ne, ne_eq] at h1 h2 h3
  rw [execJobStep, if_neg (by simp [h1]), if_neg (by simp [h2]), if_neg (by simp [h3])]
  by_cases hc : (st.type == "call_macro") = true
  · rw [if_pos hc]
    cases hl : lookupStore macros st.value with
    | none => exact ⟨s.eff, by simp [hl], EffExt.refl' _⟩
    | some msteps =>
      refine ⟨runMacroSteps env flag s.context msteps s.eff, by simp [hl], ?_⟩
      exact runMacroGo_ext env flag s.context msteps 0 s.eff
  · rw [if_neg hc]
    exact ⟨s.eff, rfl, EffExt.refl' _⟩

theorem countVisits_check_visit (b : Bool) (p : Nat) (ty : String) (c : Ctx) (k : Nat) :
    countVisits [.flagCheck b, .visit p ty c] k = if p = k then 1 else 0 := by
  by_cases h : p = k <;> simp [countVisits, List.countP_cons, h]

/-- A plain step under an uncancelled run: the program counter advances by
one, context / loop stack / liveness are unchanged, and exactly one visit (of
this position) is recorded. -/
theorem stepOnce_plain (env : MEnv) (macros : List (String × List Step))
    (steps : List Step) (s : EngineSt) (h1 : s.running = true)
    (h2 : s.pc < steps.length)
    (hplain : isPlain (steps.getD s.pc stepDefault) = true) :
    ∃ (ch po : Nat) (t : List Event),
      stepOnce env flagTrue macros steps s =
        ⟨s.pc + 1, s.context, s.loop_stack, true, ⟨ch, po, s.eff.events ++ t⟩⟩ ∧
      ∀ k, countVisits t k = if s.pc = k then 1 else 0 := by
  rw [stepOnce_run env flagTrue macros steps s h1 h2 rfl]
  obtain ⟨e', hex, t', het, hvf⟩ :=
    execJob_plain env flagTrue macros (steps.getD s.pc stepDefault)
      { s with eff := ⟨s.eff.checks + 1, s.eff.polls,
          s.eff.events ++ [.flagCheck true,
            .visit s.pc (steps.getD s.pc stepDefault).type s.context]⟩ }
      hplain
  rw [hex]
  refine ⟨e'.checks, e'.polls,
    [.flagCheck true, .visit s.pc (steps.getD s.pc stepDefault).type s.context] ++ t',
    ?_, ?_⟩
  · simp only at het
    have : e' = ⟨e'.checks, e'.polls,
        s.eff.events ++
          ([.flagCheck true, .visit s.pc (steps.getD s.pc stepDefault).type s.context] ++ t')⟩ := by
      cases e' with
      | mk ch po ev =>
        simp only at het ⊢
        rw [het, List.append_assoc]
    rw [h1]
    exact congrArg _ this
  · intro k
    rw [countVisits_append, countVisits_check_visit, visitFree_count t' hvf]
    omega

/-- A straight-line run over plain steps `a ≤ j < a + n`: each of those
positions is visited exactly once and nothing else changes but the program
counter (and the trace bookkeeping). -/
theorem run_straight (env : MEnv) (macros : List (String × List Step))
    (steps : List Step) (n : Nat) :
    ∀ (a : Nat) (s : EngineSt), a + n ≤ steps.length →
    (∀ j, a ≤ j → j < a + n → isPlain (steps.getD j stepDefault) = true) →
    s.running = true → s.pc = a →
    ∃ (ch po : Nat) (t : List Event),
      stepN env flagTrue macros steps n s =
        ⟨a + n, s.context, s.loop_stack, true, ⟨ch, po, s.eff.events ++ t⟩⟩ ∧
      ∀ k, countVisits t k = if a ≤ k ∧ k < a + n then 1 else 0 := by
  induction n with
  | zero =>
    intro a s _ _ hrun hpc
    refine ⟨s.eff.checks, s.eff.polls, [], ?_, ?_⟩
    · rw [stepN]
      simp only [Function.iterate_zero, id_eq, List.append_nil]
      cases s with
      | mk pc c stk r eff =>
        cases eff with
        | mk ch po ev =>
          simp only at hrun hpc ⊢
          rw [hrun, hpc, Nat.add_zero]
    · intro k
      rw [countVisits_nil]
      split_ifs <;> omega
  | succ m ih =>
    intro a s hlen hplain hrun hpc
    have hpclt : s.pc < steps.length := by omega
    obtain ⟨ch1, po1, t1, heq1, hcnt1⟩ :=
      stepOnce_plain env macros steps s hrun hpclt
        (by rw [hpc]; exact hplain a (Nat.le_refl a) (by omega))
    have hstep : stepN env flagTrue macros steps (m + 1) s =
        stepN env flagTrue macros steps m (stepOnce env flagTrue macros steps s) := by
      rw [stepN, stepN, Function.iterate_succ_apply]
    obtain ⟨ch2, po2, t2, heq2, hcnt2⟩ :=
      ih (a + 1) (stepOnce env flagTrue macros steps s)
        (by omega)
        (fun j hj1 hj2 => hplain j (by omega) (by omega))
        (by rw [heq1]) (by rw [heq1, hpc])
    refine ⟨ch2, po2, t1 ++ t2, ?_, ?_⟩
    · rw [hstep, heq2, heq1]
      simp only [List.append_assoc]
      congr 1
      omega
    · intro k
      rw [countVisits_append, hcnt1, hcnt2, hpc]
      split_ifs <;> omega

/- ## Loop-control scenario lemmas -/

/-- The items a loop-start step yields: spreadsheet records or counts for
`joint_start`, stripped non-empty lines for `joint_list`. -/
def startItems (env : MEnv) (st : Step) : List Item :=
  if st.type == "joint_start" then (jointStartData env st.value).1
  else if st.type == "joint_list" then
    (jointListLines st.value).map (fun l => Item.val (.str l))
  else []

/-- Whether the frame a loop-start pushes is keyed. -/
def startIsDict (env : MEnv) (st : Step) : Bool :=
  if st.type == "joint_start" then (jointStartData env st.value).2 else false

/-- `joint_end` with items remaining: rebind, jump back to start+1, cursor
advances, the frame stays (cursor bumped), exactly one visit recorded. -/
theorem stepOnce_end_continue (env : MEnv) (flag : Nat → Bool)
    (macros : List (String × List Step)) (steps : List Step) (s : EngineSt)
    (curr : LoopFrame) (rest : List LoopFrame)
    (h1 : s.running = true) (h2 : s.pc < steps.length)
    (h3 : flag s.eff.checks = true)
    (hty : (steps.getD s.pc stepDefault).type = "joint_end")
    (hstack : s.loop_stack = curr :: rest)
    (hlt : curr.idx + 1 < curr.data.length) :
    ∃ (ctx' : Ctx) (t : List Event),
      stepOnce env flag macros steps s =
        ⟨curr.start + 1, ctx', { curr with idx := curr.idx + 1 } :: rest, true,
          ⟨s.eff.checks + 1, s.eff.polls, s.eff.events ++ t⟩⟩ ∧
      ∀ j, countVisits t j = if s.pc = j then 1 else 0 := by
  rw [stepOnce_run env flag macros steps s h1 h2 h3]
  simp only [execJobStep]
  rw [hty]
  by_cases hd : curr.is_dict = true
  · refine ⟨ctxUpdate s.context (curr.data.getD (curr.idx + 1) (Item.val (.str ""))).fields,
      [.flagCheck true, .visit s.pc "joint_end" s.context], ?_, ?_⟩
    · simp [hstack, hlt, hd, h1]
    · intro j
      by_cases hj : s.pc = j <;> simp [countVisits, List.countP_cons, hj]
  · rw [Bool.not_eq_true] at hd
    refine ⟨ctxSet
        (if curr.level > 0 then
          ctxSet s.context ("i" ++ toString (curr.level + 1))
            (curr.data.getD (curr.idx + 1) (Item.val (.str ""))).asVal
         else s.context)
        "i" (curr.data.getD (curr.idx + 1) (Item.val (.str ""))).asVal,
      [.flagCheck true, .visit s.pc "joint_end" s.context,
       .selectAll,
       .copyClip ((curr.data.getD (curr.idx + 1) (Item.val (.str ""))).asVal.toStr),
       .paste], ?_, ?_⟩
    · simp [hstack, hlt, hd, h1, emit]
    · intro j
      by_cases hj : s.pc = j <;> simp [countVisits, List.countP_cons, hj]

/-- `joint_end` on an exhausted frame: the frame is popped and nothing else
changes - in particular the context is exactly preserved and the program
counter moves to the step after the loop end. -/
theorem stepOnce_end_pop (env : MEnv) (flag : Nat → Bool)
    (macros : List (String × List Step)) (steps : List Step) (s : EngineSt)
    (curr : LoopFrame) (rest : List LoopFrame)
    (h1 : s.running = true) (h2 : s.pc < steps.length)
    (h3 : flag s.eff.checks = true)
    (hty : (steps.getD s.pc stepDefault).type = "joint_end")
    (hstack : s.loop_stack = curr :: rest)
    (hge : curr.data.length ≤ curr.idx + 1) :
    stepOnce env flag macros steps s =
      ⟨s.pc + 1, s.context, rest, true,
        ⟨s.eff.checks + 1, s.eff.polls,
         s.eff.events ++ [.flagCheck true, .visit s.pc "joint_end" s.context]⟩⟩ := by
  rw [stepOnce_run env flag macros steps s h1 h2 h3]
  simp only [execJobStep]
  rw [hty]
  have hnlt : ¬ (curr.idx + 1 < curr.data.length) := by omega
  simp [hstack, hnlt, h1]

/-- `joint_end` on an empty loop stack: only a warning; the program counter
advances and nothing else changes. -/
theorem stepOnce_end_nostack (env : MEnv) (flag : Nat → Bool)
    (macros : List (String × List Step)) (steps : List Step) (s : EngineSt)
    (h1 : s.running = true) (h2 : s.pc < steps.length)
    (h3 : flag s.eff.checks = true)
    (hty : (steps.getD s.pc stepDefault).type = "joint_end")
    (hstack : s.loop_stack = []) :
    stepOnce env flag macros steps s =
      ⟨s.pc + 1, s.context, [], true,
        ⟨s.eff.checks + 1, s.eff.polls,
         s.eff.events ++ [.flagCheck true, .visit s.pc "joint_end" s.context]⟩⟩ := by
  rw [stepOnce_run env flag macros steps s h1 h2 h3]
  simp only [execJobStep]
  rw [hty]
  simp [hstack, h1]

/-- Unfolding of `startItems` / `startIsDict` on each loop-start kind. -/
theorem startItems_start (env : MEnv) (st : Step) (h : st.type = "joint_start") :
    startItems env st = (jointStartData env st.value).1 := by
  rw [startItems, if_pos (by simp [h])]

theorem startItems_list (env : MEnv) (st : Step) (h : st.type = "joint_list") :
    startItems env st = (jointListLines st.value).map (fun l => Item.val (.str l)) := by
  rw [startItems, if_neg (by simp [h]), if_pos (by simp [h])]

theorem startIsDict_start (env : MEnv) (st : Step) (h : st.type = "joint_start") :
    startIsDict env st = (jointStartData env st.value).2 := by
  rw [startIsDict, if_pos (by simp [h])]

theorem startIsDict_list (env : MEnv) (st : Step) (h : st.type = "joint_list") :
    startIsDict env st = false := by
  rw [startIsDict, if_neg (by simp [h])]

/-- A loop-start that yields items pushes the frame
`{start := pc, items, cursor := 0, keyed, level := depth}` and advances;
exactly one visit is recorded. -/
theorem stepOnce_push (env : MEnv) (flag : Nat → Bool)
    (macros : List (String × List Step)) (steps : List Step) (s : EngineSt)
    (h1 : s.running = true) (h2 : s.pc < steps.length)
    (h3 : flag s.eff.checks = true)
    (hkind : (steps.getD s.pc stepDefault).type = "joint_start" ∨
             (steps.getD s.pc stepDefault).type = "joint_list")
    (hne : startItems env (steps.getD s.pc stepDefault) ≠ []) :
    ∃ (ctx' : Ctx) (t : List Event),
      stepOnce env flag macros steps s =
        ⟨s.pc + 1, ctx',
          (⟨s.pc, startItems env (steps.getD s.pc stepDefault), 0,
            startIsDict env (steps.getD s.pc stepDefault), s.loop_stack.length⟩ :
            LoopFrame) :: s.loop_stack,
          true,
          ⟨s.eff.checks + 1, s.eff.polls, s.eff.events ++ t⟩⟩ ∧
      ∀ j, countVisits t j = if s.pc = j then 1 else 0 := by
  rw [stepOnce_run env flag macros steps s h1 h2 h3]
  simp only [execJobStep]
  rcases hkind with hty | hty
  · rw [startItems_start env _ hty] at hne ⊢
    rw [startIsDict_start env _ hty]
    rw [hty]
    rw [if_pos (by decide : (("joint_start" == "joint_start") = true))]
    cases hd : (jointStartData env (steps.getD s.pc stepDefault).value).1 with
    | nil => exact absurd hd hne
    | cons item tail =>
      rw [hd] at hne
      by_cases hisd : (jointStartData env (steps.getD s.pc stepDefault).value).2 = true
      · refine ⟨ctxUpdate s.context item.fields,
          [.flagCheck true, .visit s.pc "joint_start" s.context], ?_, ?_⟩
        · simp only []
          rw [if_pos hisd]
          simp [h1]
        · intro j
          by_cases hj : s.pc = j <;> simp [countVisits, List.countP_cons, hj]
      · rw [Bool.not_eq_true] at hisd
        refine ⟨(if s.loop_stack.length + 1 > 1 then
            ctxSet (ctxSet s.context ("i" ++ toString (s.loop_stack.length + 1))
              item.asVal) "i" item.asVal
          else ctxSet s.context "i" item.asVal),
          [.flagCheck true, .visit s.pc "joint_start" s.context], ?_, ?_⟩
        · simp only []
          rw [if_neg (by rw [hisd]; exact Bool.false_ne_true)]
          simp only [List.length_cons]
          split_ifs <;> simp [h1]
        · intro j
          by_cases hj : s.pc = j <;> simp [countVisits, List.countP_cons, hj]
  · rw [startItems_list env _ hty] at hne ⊢
    rw [startIsDict_list env _ hty]
    rw [hty]
    rw [if_neg (by decide : ¬ (("joint_list" == "joint_start") = true))]
    rw [if_pos (by decide : (("joint_list" == "joint_list") = true))]
    cases hd : jointListLines (steps.getD s.pc stepDefault).value with
    | nil => rw [hd] at hne; simp at hne
    | cons first tailLines =>
      refine ⟨(if s.loop_stack.length + 1 > 1 then
          ctxSet (ctxSet s.context ("i" ++ toString (s.loop_stack.length + 1))
            (.str first)) "i" (.str first)
        else ctxSet s.context "i" (.str first)),
        [.flagCheck true, .visit s.pc "joint_list" s.context,
         .selectAll, .copyClip first, .paste], ?_, ?_⟩
      · simp only []
        simp only [List.length_cons]
        split_ifs <;> simp [h1, emit]
      · intro j
        by_cases hj : s.pc = j <;> simp [countVisits, List.countP_cons, hj]

theorem stepN_add (env : MEnv) (flag : Nat → Bool) (macros : List (String × List Step))
    (steps : List Step) (m n : Nat) (s : EngineSt) :
    stepN env flag macros steps (m + n) s =
      stepN env flag macros steps m (stepN env flag macros steps n s) := by
  rw [stepN, stepN, stepN, Function.iterate_add_apply]

theorem stepN_one (env : MEnv) (flag : Nat → Bool) (macros : List (String × List Step))
    (steps : List Step) (s : EngineSt) :
    stepN env flag macros steps 1 s = stepOnce env flag macros steps s := by
  rw [stepN, Function.iterate_one]

/-- One full traversal of a loop whose frame sits on top of the stack: from
the step after loop-start with `fr.data.length - fr.idx` iterations left,
every body position and the loop-end are visited exactly that many times,
after which the frame is popped, the surrounding stack is restored and
execution stands at the step after loop-end. -/
theorem run_loop (env : MEnv) (macros : List (String × List Step)) (steps : List Step)
    (p q : Nat) (rest : List LoopFrame)
    (hq : q < steps.length) (hpq : p < q)
    (hend : (steps.getD q stepDefault).type = "joint_end")
    (hplain : ∀ j, p + 1 ≤ j → j < q → isPlain (steps.getD j stepDefault) = true) :
    ∀ (k : Nat) (fr : LoopFrame) (s : EngineSt),
      fr.data.length - fr.idx = k →
      fr.idx < fr.data.length → fr.start = p →
      s.running = true → s.pc = p + 1 → s.loop_stack = fr :: rest →
      ∃ (n : Nat) (ctx' : Ctx) (ch po : Nat) (t : List Event),
        stepN env flagTrue macros steps n s =
          ⟨q + 1, ctx', rest, true, ⟨ch, po, s.eff.events ++ t⟩⟩ ∧
        ∀ j, countVisits t j =
          if p + 1 ≤ j ∧ j ≤ q then fr.data.length - fr.idx else 0 := by
  intro k
  induction k using Nat.strong_induction_on with
  | _ k ihk =>
    intro fr s hk hidx hstart hrun hpc hstack
    obtain ⟨ch1, po1, t1, heq1, hcnt1⟩ :=
      run_straight env macros steps (q - (p + 1)) (p + 1) s (by omega)
        (fun j hj1 hj2 => hplain j hj1 (by omega)) hrun hpc
    have hq1 : p + 1 + (q - (p + 1)) = q := by omega
    rw [hq1] at heq1
    rw [hstack] at heq1
    by_cases hlast : fr.idx + 1 < fr.data.length
    · -- items remain: one more loop round, then recurse
      obtain ⟨ctx2, t2, heq2, hcnt2⟩ :=
        stepOnce_end_continue env flagTrue macros steps
          ⟨q, s.context, fr :: rest, true, ⟨ch1, po1, s.eff.events ++ t1⟩⟩ fr rest
          rfl hq rfl hend rfl hlast
      simp only at heq2 hcnt2
      obtain ⟨n3, ctx3, ch3, po3, t3, heq3, hcnt3⟩ :=
        ihk (fr.data.length - (fr.idx + 1)) (by omega)
          ({ fr with idx := fr.idx + 1 })
          ⟨fr.start + 1, ctx2, { fr with idx := fr.idx + 1 } :: rest, true,
            ⟨ch1 + 1, po1, (s.eff.events ++ t1) ++ t2⟩⟩
          (by simp) (by simpa using hlast) (by simpa using hstart)
          rfl (by simp [hstart]) rfl
      simp only at heq3 hcnt3
      refine ⟨n3 + (1 + (q - (p + 1))), ctx3, ch3, po3, t1 ++ (t2 ++ t3), ?_, ?_⟩
      · rw [stepN_add, stepN_add, stepN_one, heq1, heq2, heq3]
        simp [List.append_assoc]
      · intro j
        rw [countVisits_append, countVisits_append, hcnt1, hcnt2, hcnt3]
        split_ifs <;> omega
    · -- last item: the loop end pops the frame
      have heq2 :=
        stepOnce_end_pop env flagTrue macros steps
          ⟨q, s.context, fr :: rest, true, ⟨ch1, po1, s.eff.events ++ t1⟩⟩ fr rest
          rfl hq rfl hend rfl (by omega)
      simp only at heq2
      refine ⟨1 + (q - (p + 1)), s.context, ch1 + 1, po1,
        t1 ++ [.flagCheck true, .visit q "joint_end" s.context], ?_, ?_⟩
      · rw [stepN_add, stepN_one, heq1, heq2]
        simp [List.append_assoc]
      · intro j
        rw [countVisits_append, hcnt1, countVisits_check_visit]
        split_ifs <;> omega

/- ## C2: a balanced loop pair executes its body once per item -/

/-- A step list holding exactly one balanced loop pair: plain steps, the
loop-start `st0`, a plain body, the loop-end `e0`, plain trailing steps. -/
def progOf (pre : List Step) (st0 : Step) (body : List Step) (e0 : Step)
    (post : List Step) : List Step :=
  pre ++ (st0 :: (body ++ (e0 :: post)))

theorem isPlain_getD (l : List Step) (h : ∀ st ∈ l, isPlain st = true)
    (j : Nat) (hj : j < l.length) : isPlain (l.getD j stepDefault) = true := by
  have hm : l.getD j stepDefault ∈ l := by
    rw [List.getD_eq_getElem l stepDefault hj]
    exact List.getElem_mem hj
  exact h _ hm

theorem progOf_length (pre : List Step) (st0 : Step) (body : List Step)
    (e0 : Step) (post : List Step) :
    (progOf pre st0 body e0 post).length =
      pre.length + 1 + body.length + 1 + post.length := by
  simp [progOf]
  omega

theorem progOf_getD_pre (pre : List Step) (st0 : Step) (body : List Step)
    (e0 : Step) (post : List Step) (j : Nat) (hj : j < pre.length) :
    (progOf pre st0 body e0 post).getD j stepDefault = pre.getD j stepDefault := by
  rw [progOf]
  exact List.getD_append _ _ _ _ hj

theorem progOf_getD_start (pre : List Step) (st0 : Step) (body : List Step)
    (e0 : Step) (post : List Step) :
    (progOf pre st0 body e0 post).getD pre.length stepDefault = st0 := by
  rw [progOf, List.getD_append_right _ _ _ _ (Nat.le_refl _), Nat.sub_self]
  rfl

theorem progOf_getD_body (pre : List Step) (st0 : Step) (body : List Step)
    (e0 : Step) (post : List Step) (j : Nat) (hj1 : pre.length + 1 ≤ j)
    (_hj2 : j < pre.length + 1 + body.length) :
    (progOf pre st0 body e0 post).getD j stepDefault =
      body.getD (j - (pre.length + 1)) stepDefault := by
  rw [progOf, List.getD_append_right _ _ _ _ (by omega)]
  have h1 : j - pre.length = (j - (pre.length + 1)) + 1 := by omega
  rw [h1, List.getD_cons_succ]
  exact List.getD_append _ _ _ _ (by omega)

theorem progOf_getD_end (pre : List Step) (st0 : Step) (body : List Step)
    (e0 : Step) (post : List Step) :
    (progOf pre st0 body e0 post).getD (pre.length + 1 + body.length) stepDefault =
      e0 := by
  rw [progOf, List.getD_append_right _ _ _ _ (by omega)]
  have h1 : pre.length + 1 + body.length - pre.length = body.length + 1 := by omega
  rw [h1, List.getD_cons_succ,
    List.getD_append_right _ _ _ _ (Nat.le_refl _), Nat.sub_self]
  rfl

theorem progOf_getD_post (pre : List Step) (st0 : Step) (body : List Step)
    (e0 : Step) (post : List Step) (j : Nat)
    (hj1 : pre.length + 1 + body.length < j)
    (_hj2 : j < pre.length + 1 + body.length + 1 + post.length) :
    (progOf pre st0 body e0 post).getD j stepDefault =
      post.getD (j - (pre.length + 1 + body.length + 1)) stepDefault := by
  rw [progOf, List.getD_append_right _ _ _ _ (by omega)]
  have h1 : j - pre.length = (j - (pre.length + 1)) + 1 := by omega
  rw [h1, List.getD_cons_succ, List.getD_append_right _ _ _ _ (by omega)]
  have h2 : j - (pre.length + 1) - body.length =
      (j - (pre.length + 1 + body.length + 1)) + 1 := by omega
  rw [h2, List.getD_cons_succ]

/-- **C2.**  For a step list containing one balanced loop pair whose
loop-start yields `N ≥ 1` items, the run terminates with: every step strictly
between loop-start and loop-end executed exactly `N` times, the loop-end
itself reached `N` times, the loop-start triggered exactly once (the PC
rewind lands on start+1), the frame popped (empty loop stack at the end), and
every step before the pair and after the loop-end executed exactly once
(execution resumes past the loop-end and runs to completion). -/
theorem C2_balanced_loop_body_N_times (env : MEnv)
    (macros : List (String × List Step)) (pre body post : List Step)
    (st0 e0 : Step) (N : Nat)
    (hpre : ∀ st ∈ pre, isPlain st = true)
    (hbody : ∀ st ∈ body, isPlain st = true)
    (hpost : ∀ st ∈ post, isPlain st = true)
    (hkind : st0.type = "joint_start" ∨ st0.type = "joint_list")
    (he : e0.type = "joint_end")
    (hN : (startItems env st0).length = N) (hpos : 0 < N) :
    ∃ n : Nat,
      (stepN env flagTrue macros (progOf pre st0 body e0 post) n initSt).running = false ∧
      (stepN env flagTrue macros (progOf pre st0 body e0 post) n initSt).pc =
        (progOf pre st0 body e0 post).length ∧
      (stepN env flagTrue macros (progOf pre st0 body e0 post) n initSt).loop_stack = [] ∧
      (∀ j, pre.length + 1 ≤ j → j < pre.length + 1 + body.length →
        countVisits (stepN env flagTrue macros (progOf pre st0 body e0 post) n
          initSt).eff.events j = N) ∧
      countVisits (stepN env flagTrue macros (progOf pre st0 body e0 post) n
        initSt).eff.events (pre.length + 1 + body.length) = N ∧
      countVisits (stepN env flagTrue macros (progOf pre st0 body e0 post) n
        initSt).eff.events pre.length = 1 ∧
      (∀ j, j < pre.length →
        countVisits (stepN env flagTrue macros (progOf pre st0 body e0 post) n
          initSt).eff.events j = 1) ∧
      (∀ j, pre.length + 1 + body.length < j →
        j < (progOf pre st0 body e0 post).length →
        countVisits (stepN env flagTrue macros (progOf pre st0 body e0 post) n
          initSt).eff.events j = 1) := by
  have hplen := progOf_length pre st0 body e0 post
  have hne : startItems env st0 ≠ [] := by
    intro hemp
    rw [hemp] at hN
    simp at hN
    omega
  -- phase 1: the prefix
  obtain ⟨chA, poA, tA, heqA, hcntA⟩ :=
    run_straight env macros (progOf pre st0 body e0 post) pre.length 0 initSt
      (by omega)
      (fun j hj1 hj2 => by
        rw [progOf_getD_pre pre st0 body e0 post j (by omega)]
        exact isPlain_getD pre hpre j (by omega))
      rfl rfl
  simp only [Nat.zero_add] at heqA
  rw [show initSt.context = [] from rfl, show initSt.loop_stack = [] from rfl,
    show initSt.eff.events = [] from rfl, List.nil_append] at heqA
  -- phase 2: the loop start pushes its frame
  obtain ⟨ctxB, tB, heqB, hcntB⟩ :=
    stepOnce_push env flagTrue macros (progOf pre st0 body e0 post)
      ⟨pre.length, [], [], true, ⟨chA, poA, tA⟩⟩
      rfl (by show pre.length < (progOf pre st0 body e0 post).length; omega) rfl
      (by rw [progOf_getD_start]; exact hkind)
      (by rw [progOf_getD_start]; exact hne)
  simp only [List.length_nil] at heqB hcntB
  rw [progOf_getD_start] at heqB
  -- phase 3: the loop itself
  obtain ⟨nC, ctxC, chC, poC, tC, heqC, hcntC⟩ :=
    run_loop env macros (progOf pre st0 body e0 post) pre.length
      (pre.length + 1 + body.length) []
      (by omega) (by omega)
      (by rw [progOf_getD_end]; exact he)
      (fun j hj1 hj2 => by
        rw [progOf_getD_body pre st0 body e0 post j hj1 hj2]
        exact isPlain_getD body hbody _ (by omega))
      N
      ⟨pre.length, startItems env st0, 0, startIsDict env st0, 0⟩
      ⟨pre.length + 1, ctxB,
        ⟨pre.length, startItems env st0, 0, startIsDict env st0, 0⟩ :: [], true,
        ⟨chA + 1, poA, tA ++ tB⟩⟩
      (by simpa using hN) (by simpa [hN] using hpos) rfl rfl rfl rfl
  simp only at heqC hcntC
  rw [hN] at hcntC
  simp only [Nat.sub_zero] at hcntC
  -- phase 4: the suffix after the loop end
  obtain ⟨chD, poD, tD, heqD, hcntD⟩ :=
    run_straight env macros (progOf pre st0 body e0 post) post.length
      (pre.length + 1 + body.length + 1)
      ⟨pre.length + 1 + body.length + 1, ctxC, [], true,
        ⟨chC, poC, (tA ++ tB) ++ tC⟩⟩
      (by omega)
      (fun j hj1 hj2 => by
        rw [progOf_getD_post pre st0 body e0 post j (by omega) (by omega)]
        exact isPlain_getD post hpost _ (by omega))
      rfl rfl
  simp only at heqD hcntD
  -- phase 5: the loop condition fails, the run ends
  have heqE :=
    stepOnce_done env flagTrue macros (progOf pre st0 body e0 post)
      ⟨pre.length + 1 + body.length + 1 + post.length, ctxC, [], true,
        ⟨chD, poD, ((tA ++ tB) ++ tC) ++ tD⟩⟩
      rfl (by show (progOf pre st0 body e0 post).length ≤ pre.length + 1 + body.length + 1 + post.length; omega)
  simp only at heqE
  -- assemble the full run
  refine ⟨1 + (post.length + (nC + (1 + pre.length))), ?_, ?_, ?_, ?_, ?_, ?_, ?_, ?_⟩
    <;> rw [stepN_add, stepN_add, stepN_add, stepN_add, stepN_one, stepN_one,
          heqA, heqB, heqC, heqD, heqE]
  · show pre.length + 1 + body.length + 1 + post.length = (progOf pre st0 body e0 post).length
    omega
  · intro j hj1 hj2
    show countVisits (tA ++ tB ++ tC ++ tD) j = N
    rw [countVisits_append, countVisits_append, countVisits_append,
      hcntA, hcntB, hcntC, hcntD]
    split_ifs <;> omega
  · show countVisits (tA ++ tB ++ tC ++ tD) (pre.length + 1 + body.length) = N
    rw [countVisits_append, countVisits_append, countVisits_append,
      hcntA, hcntB, hcntC, hcntD]
    split_ifs <;> omega
  · show countVisits (tA ++ tB ++ tC ++ tD) pre.length = 1
    rw [countVisits_append, countVisits_append, countVisits_append,
      hcntA, hcntB, hcntC, hcntD]
    split_ifs <;> omega
  · intro j hj
    show countVisits (tA ++ tB ++ tC ++ tD) j = 1
    rw [countVisits_append, countVisits_append, countVisits_append,
      hcntA, hcntB, hcntC, hcntD]
    split_ifs <;> omega
  · intro j hj1 hj2
    show countVisits (tA ++ tB ++ tC ++ tD) j = 1
    rw [countVisits_append, countVisits_append, countVisits_append,
      hcntA, hcntB, hcntC, hcntD]
    rw [hplen] at hj2
    split_ifs <;> omega

theorem C2_balanced_loop_body_N_times_witness :
    ∃ n : Nat,
      (stepN env0 flagTrue []
        (progOf [] ⟨"joint_start", "2"⟩ [⟨"key", "enter"⟩] ⟨"joint_end", ""⟩
          [⟨"key", "tab"⟩]) n initSt).running = false ∧
      (stepN env0 flagTrue []
        (progOf [] ⟨"joint_start", "2"⟩ [⟨"key", "enter"⟩] ⟨"joint_end", ""⟩
          [⟨"key", "tab"⟩]) n initSt).pc =
        (progOf [] ⟨"joint_start", "2"⟩ [⟨"key", "enter"⟩] ⟨"joint_end", ""⟩
          [⟨"key", "tab"⟩]).length ∧
      (stepN env0 flagTrue []
        (progOf [] ⟨"joint_start", "2"⟩ [⟨"key", "enter"⟩] ⟨"joint_end", ""⟩
          [⟨"key", "tab"⟩]) n initSt).loop_stack = [] ∧
      (∀ j, 1 ≤ j → j < 2 →
        countVisits (stepN env0 flagTrue []
          (progOf [] ⟨"joint_start", "2"⟩ [⟨"key", "enter"⟩] ⟨"joint_end", ""⟩
            [⟨"key", "tab"⟩]) n initSt).eff.events j = 2) ∧
      countVisits (stepN env0 flagTrue []
        (progOf [] ⟨"joint_start", "2"⟩ [⟨"key", "enter"⟩] ⟨"joint_end", ""⟩
          [⟨"key", "tab"⟩]) n initSt).eff.events 2 = 2 ∧
      countVisits (stepN env0 flagTrue []
        (progOf [] ⟨"joint_start", "2"⟩ [⟨"key", "enter"⟩] ⟨"joint_end", ""⟩
          [⟨"key", "tab"⟩]) n initSt).eff.events 0 = 1 ∧
      (∀ j, j < 0 →
        countVisits (stepN env0 flagTrue []
          (progOf [] ⟨"joint_start", "2"⟩ [⟨"key", "enter"⟩] ⟨"joint_end", ""⟩
            [⟨"key", "tab"⟩]) n initSt).eff.events j = 1) ∧
      (∀ j, 2 < j →
        j < (progOf [] ⟨"joint_start", "2"⟩ [⟨"key", "enter"⟩] ⟨"joint_end", ""⟩
          [⟨"key", "tab"⟩]).length →
        countVisits (stepN env0 flagTrue []
          (progOf [] ⟨"joint_start", "2"⟩ [⟨"key", "enter"⟩] ⟨"joint_end", ""⟩
            [⟨"key", "tab"⟩]) n initSt).eff.events j = 1) :=
  C2_balanced_loop_body_N_times env0 [] [] [⟨"key", "enter"⟩] [⟨"key", "tab"⟩]
    ⟨"joint_start", "2"⟩ ⟨"joint_end", ""⟩ 2
    (by simp) (by decide) (by decide) (Or.inl rfl) rfl (by decide) (by decide)

/- ## C9: a loop-start with no data pushes nothing -/

/-- A loop-start whose value yields no items (count `"0"`, a missing,
unreadable or empty spreadsheet, blank list text, or a value that is neither
a spreadsheet path nor a digit string): no frame is pushed, context and loop
stack are untouched, the program counter simply advances. -/
theorem stepOnce_start_empty (env : MEnv) (flag : Nat → Bool)
    (macros : List (String × List Step)) (steps : List Step) (s : EngineSt)
    (h1 : s.running = true) (h2 : s.pc < steps.length)
    (h3 : flag s.eff.checks = true)
    (hkind : (steps.getD s.pc stepDefault).type = "joint_start" ∨
             (steps.getD s.pc stepDefault).type = "joint_list")
    (hempty : startItems env (steps.getD s.pc stepDefault) = []) :
    stepOnce env flag macros steps s =
      ⟨s.pc + 1, s.context, s.loop_stack, true,
        ⟨s.eff.checks + 1, s.eff.polls,
         s.eff.events ++ [.flagCheck true,
           .visit s.pc (steps.getD s.pc stepDefault).type s.context]⟩⟩ := by
  rw [stepOnce_run env flag macros steps s h1 h2 h3]
  simp only [execJobStep]
  rcases hkind with hty | hty
  · rw [startItems_start env _ hty] at hempty
    rw [hty]
    rw [if_pos (by decide : (("joint_start" == "joint_start") = true))]
    rw [hempty]
    simp [h1]
  · rw [startItems_list env _ hty] at hempty
    have hlines : jointListLines (steps.getD s.pc stepDefault).value = [] := by
      rcases hl : jointListLines (steps.getD s.pc stepDefault).value with _ | ⟨a, b⟩
      · rfl
      · rw [hl] at hempty
        simp at hempty
    rw [hty]
    rw [if_neg (by decide : ¬ (("joint_list" == "joint_start") = true))]
    rw [if_pos (by decide : (("joint_list" == "joint_list") = true))]
    rw [hlines]
    simp [h1]

/-- **C9.**  A loop-start step whose value yields zero items pushes no frame
and only advances the PC (conjunct 1); a `joint_end` that finds an empty
LoopStack logs a warning and changes no state beyond the PC (conjunct 2); and
in a full run `[start] ++ body ++ [end] ++ post` whose start yields no items,
every step - including each body step - executes exactly once as
straight-line code, the run terminates past the end, the loop stack stays
empty and the context is never written (conjunct 3). -/
theorem C9_empty_loop_straight_line (env : MEnv) (flag : Nat → Bool)
    (macros : List (String × List Step)) (steps : List Step) (s s' : EngineSt)
    (body post : List Step) (s0 e0 : Step)
    (h1 : s.running = true) (h2 : s.pc < steps.length)
    (h3 : flag s.eff.checks = true)
    (hkind : (steps.getD s.pc stepDefault).type = "joint_start" ∨
             (steps.getD s.pc stepDefault).type = "joint_list")
    (hempty : startItems env (steps.getD s.pc stepDefault) = [])
    (h1' : s'.running = true) (h2' : s'.pc < steps.length)
    (h3' : flag s'.eff.checks = true)
    (hty' : (steps.getD s'.pc stepDefault).type = "joint_end")
    (hstack' : s'.loop_stack = [])
    (hkind0 : s0.type = "joint_start" ∨ s0.type = "joint_list")
    (hempty0 : startItems env s0 = [])
    (he : e0.type = "joint_end")
    (hbody : ∀ st ∈ body, isPlain st = true)
    (hpost : ∀ st ∈ post, isPlain st = true) :
    (stepOnce env flag macros steps s =
      ⟨s.pc + 1, s.context, s.loop_stack, true,
        ⟨s.eff.checks + 1, s.eff.polls,
         s.eff.events ++ [.flagCheck true,
           .visit s.pc (steps.getD s.pc stepDefault).type s.context]⟩⟩) ∧
    (stepOnce env flag macros steps s' =
      ⟨s'.pc + 1, s'.context, [], true,
        ⟨s'.eff.checks + 1, s'.eff.polls,
         s'.eff.events ++ [.flagCheck true,
           .visit s'.pc "joint_end" s'.context]⟩⟩) ∧
    (∃ n : Nat,
      (stepN env flagTrue macros (progOf [] s0 body e0 post) n initSt).running = false ∧
      (stepN env flagTrue macros (progOf [] s0 body e0 post) n initSt).pc =
        (progOf [] s0 body e0 post).length ∧
      (stepN env flagTrue macros (progOf [] s0 body e0 post) n initSt).loop_stack = [] ∧
      (stepN env flagTrue macros (progOf [] s0 body e0 post) n initSt).context = [] ∧
      (∀ j, j < (progOf [] s0 body e0 post).length →
        countVisits (stepN env flagTrue macros (progOf [] s0 body e0 post) n
          initSt).eff.events j = 1)) := by
  refine ⟨stepOnce_start_empty env flag macros steps s h1 h2 h3 hkind hempty,
    stepOnce_end_nostack env flag macros steps s' h1' h2' h3' hty' hstack', ?_⟩
  have hplen := progOf_length [] s0 body e0 post
  simp only [List.length_nil] at hplen
  have hg0 : (progOf [] s0 body e0 post).getD initSt.pc stepDefault = s0 := by
    rw [show initSt.pc = ([] : List Step).length from rfl, progOf_getD_start]
  -- the start with no data
  have heqA0 :=
    stepOnce_start_empty env flagTrue macros (progOf [] s0 body e0 post) initSt
      rfl (by show 0 < (progOf [] s0 body e0 post).length; omega) rfl
      (by rw [hg0]; exact hkind0)
      (by rw [hg0]; exact hempty0)
  rw [hg0] at heqA0
  have heqA : stepOnce env flagTrue macros (progOf [] s0 body e0 post) initSt =
      ⟨1, [], [], true, ⟨1, 0, [.flagCheck true, .visit 0 s0.type []]⟩⟩ := heqA0
  -- the body, straight line
  obtain ⟨chB, poB, tB, heqB0, hcntB⟩ :=
    run_straight env macros (progOf [] s0 body e0 post) body.length 1
      ⟨1, [], [], true, ⟨1, 0, [.flagCheck true, .visit 0 s0.type []]⟩⟩
      (by omega)
      (fun j hj1 hj2 => by
        rw [show (progOf [] s0 body e0 post).getD j stepDefault =
              body.getD (j - 1) stepDefault by
            have := progOf_getD_body [] s0 body e0 post j (by simpa using hj1)
              (by simpa using hj2)
            simpa using this]
        exact isPlain_getD body hbody _ (by omega))
      rfl rfl
  have heqB : stepN env flagTrue macros (progOf [] s0 body e0 post) body.length
      ⟨1, [], [], true, ⟨1, 0, [.flagCheck true, .visit 0 s0.type []]⟩⟩ =
      ⟨1 + body.length, [], [], true,
        ⟨chB, poB, [Event.flagCheck true, Event.visit 0 s0.type []] ++ tB⟩⟩ := heqB0
  -- the dead loop end
  have hgq : (progOf [] s0 body e0 post).getD
      (([] : List Step).length + 1 + body.length) stepDefault = e0 :=
    progOf_getD_end [] s0 body e0 post
  have heqC0 :=
    stepOnce_end_nostack env flagTrue macros (progOf [] s0 body e0 post)
      ⟨1 + body.length, [], [], true,
        ⟨chB, poB, [Event.flagCheck true, Event.visit 0 s0.type []] ++ tB⟩⟩
      rfl (by show 1 + body.length < (progOf [] s0 body e0 post).length; omega) rfl
      (by show ((progOf [] s0 body e0 post).getD (1 + body.length) stepDefault).type =
            "joint_end"
          rw [show (1 + body.length : Nat) =
                ([] : List Step).length + 1 + body.length by simp, hgq]
          exact he)
      rfl
  have heqC : stepOnce env flagTrue macros (progOf [] s0 body e0 post)
      ⟨1 + body.length, [], [], true,
        ⟨chB, poB, [Event.flagCheck true, Event.visit 0 s0.type []] ++ tB⟩⟩ =
      ⟨1 + body.length + 1, [], [], true,
        ⟨chB + 1, poB,
         ([Event.flagCheck true, Event.visit 0 s0.type []] ++ tB) ++
           [Event.flagCheck true, Event.visit (1 + body.length) "joint_end" []]⟩⟩ := heqC0
  -- the suffix
  obtain ⟨chD, poD, tD, heqD0, hcntD⟩ :=
    run_straight env macros (progOf [] s0 body e0 post) post.length
      (1 + body.length + 1)
      ⟨1 + body.length + 1, [], [], true,
        ⟨chB + 1, poB,
         ([Event.flagCheck true, Event.visit 0 s0.type []] ++ tB) ++
           [Event.flagCheck true, Event.visit (1 + body.length) "joint_end" []]⟩⟩
      (by omega)
      (fun j hj1 hj2 => by
        rw [show (progOf [] s0 body e0 post).getD j stepDefault =
              post.getD (j - (1 + body.length + 1)) stepDefault by
            have := progOf_getD_post [] s0 body e0 post j (by simp; omega)
              (by simp; omega)
            simpa using this]
        exact isPlain_getD post hpost _ (by omega))
      rfl rfl
  have heqD : stepN env flagTrue macros (progOf [] s0 body e0 post) post.length
      ⟨1 + body.length + 1, [], [], true,
        ⟨chB + 1, poB,
         ([Event.flagCheck true, Event.visit 0 s0.type []] ++ tB) ++
           [Event.flagCheck true, Event.visit (1 + body.length) "joint_end" []]⟩⟩ =
      ⟨1 + body.length + 1 + post.length, [], [], true,
        ⟨chD, poD,
         (([Event.flagCheck true, Event.visit 0 s0.type []] ++ tB) ++
           [Event.flagCheck true, Event.visit (1 + body.length) "joint_end" []]) ++ tD⟩⟩ :=
    heqD0
  -- the loop condition fails
  have heqE :=
    stepOnce_done env flagTrue macros (progOf [] s0 body e0 post)
      ⟨1 + body.length + 1 + post.length, [], [], true,
        ⟨chD, poD,
         (([Event.flagCheck true, Event.visit 0 s0.type []] ++ tB) ++
           [Event.flagCheck true, Event.visit (1 + body.length) "joint_end" []]) ++ tD⟩⟩
      rfl (by show (progOf [] s0 body e0 post).length ≤ 1 + body.length + 1 + post.length; omega)
  refine ⟨1 + (post.length + (1 + (body.length + 1))), ?_, ?_, ?_, ?_, ?_⟩
    <;> rw [stepN_add, stepN_add, stepN_add, stepN_add, stepN_one, stepN_one, stepN_one,
          heqA, heqB, heqC, heqD, heqE]
  · show 1 + body.length + 1 + post.length = (progOf [] s0 body e0 post).length
    omega
  · intro j hj
    rw [hplen] at hj
    show countVisits
      ((([Event.flagCheck true, Event.visit 0 s0.type []] ++ tB) ++
        [Event.flagCheck true, Event.visit (1 + body.length) "joint_end" []]) ++ tD) j = 1
    rw [countVisits_append, countVisits_append, countVisits_append,
      countVisits_check_visit, countVisits_check_visit, hcntB, hcntD]
    split_ifs <;> omega

theorem C9_empty_loop_straight_line_witness :
    (stepOnce env0 flagTrue [] [⟨"joint_start", "0"⟩, ⟨"joint_end", ""⟩]
        ⟨0, [("x", .str "1")], [], true, eff0⟩ =
      ⟨1, [("x", .str "1")], [], true,
        ⟨1, 0, [.flagCheck true, .visit 0 "joint_start" [("x", .str "1")]]⟩⟩) ∧
    (stepOnce env0 flagTrue [] [⟨"joint_start", "0"⟩, ⟨"joint_end", ""⟩]
        ⟨1, [("x", .str "1")], [], true, eff0⟩ =
      ⟨2, [("x", .str "1")], [], true,
        ⟨1, 0, [.flagCheck true, .visit 1 "joint_end" [("x", .str "1")]]⟩⟩) ∧
    (∃ n : Nat,
      (stepN env0 flagTrue [] (progOf [] ⟨"joint_start", "0"⟩ [⟨"key", "enter"⟩]
        ⟨"joint_end", ""⟩ [⟨"key", "tab"⟩]) n initSt).running = false ∧
      (stepN env0 flagTrue [] (progOf [] ⟨"joint_start", "0"⟩ [⟨"key", "enter"⟩]
        ⟨"joint_end", ""⟩ [⟨"key", "tab"⟩]) n initSt).pc =
        (progOf [] ⟨"joint_start", "0"⟩ [⟨"key", "enter"⟩]
          ⟨"joint_end", ""⟩ [⟨"key", "tab"⟩]).length ∧
      (stepN env0 flagTrue [] (progOf [] ⟨"joint_start", "0"⟩ [⟨"key", "enter"⟩]
        ⟨"joint_end", ""⟩ [⟨"key", "tab"⟩]) n initSt).loop_stack = [] ∧
      (stepN env0 flagTrue [] (progOf [] ⟨"joint_start", "0"⟩ [⟨"key", "enter"⟩]
        ⟨"joint_end", ""⟩ [⟨"key", "tab"⟩]) n initSt).context = [] ∧
      (∀ j, j < (progOf [] ⟨"joint_start", "0"⟩ [⟨"key", "enter"⟩]
          ⟨"joint_end", ""⟩ [⟨"key", "tab"⟩]).length →
        countVisits (stepN env0 flagTrue [] (progOf [] ⟨"joint_start", "0"⟩
          [⟨"key", "enter"⟩] ⟨"joint_end", ""⟩ [⟨"key", "tab"⟩]) n
          initSt).eff.events j = 1)) :=
  C9_empty_loop_straight_line env0 flagTrue []
    [⟨"joint_start", "0"⟩, ⟨"joint_end", ""⟩]
    ⟨0, [("x", .str "1")], [], true, eff0⟩
    ⟨1, [("x", .str "1")], [], true, eff0⟩
    [⟨"key", "enter"⟩] [⟨"key", "tab"⟩] ⟨"joint_start", "0"⟩ ⟨"joint_end", ""⟩
    rfl (by decide) rfl (Or.inl rfl) (by decide)
    rfl (by decide) rfl rfl rfl (Or.inl rfl) (by decide) rfl (by decide) (by decide)

/- ## C4: the loop-stack cursor invariant -/

theorem execJob_stackInv (env : MEnv) (flag : Nat → Bool)
    (macros : List (String × List Step)) (st : Step) (s : EngineSt)
    (h : ∀ fr ∈ s.loop_stack, fr.idx < fr.data.length) :
    ∀ fr ∈ (execJobStep env flag macros st s).loop_stack,
      fr.idx < fr.data.length := by
  simp only [execJobStep]
  by_cases h1 : (st.type == "joint_start") = true
  · rw [if_pos h1]
    cases hd : (jointStartData env st.value).1 with
    | nil => simpa using h
    | cons item tail =>
      simp only []
      intro fr hfr
      rcases List.mem_cons.mp hfr with hfr | hfr
      · rw [hfr]; simp
      · exact h fr hfr
  · rw [if_neg h1]
    by_cases h2 : (st.type == "joint_list") = true
    · rw [if_pos h2]
      cases hd : jointListLines st.value with
      | nil => simpa using h
      | cons first tailLines =>
        simp only []
        intro fr hfr
        rcases List.mem_cons.mp hfr with hfr | hfr
        · rw [hfr]; simp
        · exact h fr hfr
    · rw [if_neg h2]
      by_cases h3 : (st.type == "joint_end") = true
      · rw [if_pos h3]
        cases hs : s.loop_stack with
        | nil =>
          simp only []
          rw [hs]
          simp
        | cons curr rest =>
          simp only []
          by_cases hlt : curr.idx + 1 < curr.data.length
          · rw [if_pos hlt]
            intro fr hfr
            rcases List.mem_cons.mp hfr with hfr | hfr
            · rw [hfr]; simpa using hlt
            · exact h fr (hs ▸ List.mem_cons_of_mem curr hfr)
          · rw [if_neg hlt]
            intro fr hfr
            exact h fr (hs ▸ List.mem_cons_of_mem curr hfr)
      · rw [if_neg h3]
        by_cases h4 : (st.type == "call_macro") = true
        · rw [if_pos h4]
          cases hl : lookupStore macros st.value with
          | none => simpa using h
          | some msteps => simpa using h
        · rw [if_neg h4]
          exact h

theorem stepOnce_stackInv (env : MEnv) (flag : Nat → Bool)
    (macros : List (String × List Step)) (steps : List Step) (s : EngineSt)
    (h : ∀ fr ∈ s.loop_stack, fr.idx < fr.data.length) :
    ∀ fr ∈ (stepOnce env flag macros steps s).loop_stack,
      fr.idx < fr.data.length := by
  simp only [stepOnce]
  split_ifs with hr hp hb
  · exact h
  · simpa using h
  · simpa using h
  · intro fr hfr
    refine execJob_stackInv env flag macros (steps.getD s.pc stepDefault)
      { s with eff := ⟨s.eff.checks + 1, s.eff.polls,
          s.eff.events ++ [.flagCheck (flag s.eff.checks),
            .visit s.pc (steps.getD s.pc stepDefault).type s.context]⟩ }
      (by simpa using h) fr ?_
    simpa using hfr

/-- **C4.**  Throughout every run of the assembly interpreter (any
environment, cancellation schedule, part store, step list, any number of
iterations from the initial state), every frame on the loop stack satisfies
`cursor < len(items)` - in particular `cursor ≤ len(items)`, and a frame
whose cursor has reached `len(items)` is never on the stack at a step
boundary: the `joint_end` that exhausts it pops it at once and it is never
pushed back or consulted again. -/
theorem C4_cursor_never_exceeds_items (env : MEnv) (flag : Nat → Bool)
    (macros : List (String × List Step)) (steps : List Step) (n : Nat) :
    ∀ fr ∈ (stepN env flag macros steps n initSt).loop_stack,
      fr.idx < fr.data.length ∧ fr.idx ≤ fr.data.length := by
  have main : ∀ (m : Nat) (s : EngineSt),
      (∀ fr ∈ s.loop_stack, fr.idx < fr.data.length) →
      ∀ fr ∈ (stepN env flag macros steps m s).loop_stack,
        fr.idx < fr.data.length := by
    intro m
    induction m with
    | zero => intro s h; simpa [stepN] using h
    | succ m2 ih =>
      intro s h
      rw [stepN, Function.iterate_succ_apply']
      exact stepOnce_stackInv env flag macros steps _ (ih s h)
  intro fr hfr
  have hlt := main n initSt (by simp [initSt]) fr hfr
  exact ⟨hlt, Nat.le_of_lt hlt⟩

theorem C4_cursor_never_exceeds_items_witness :
    (⟨0, [Item.val (.num 1), Item.val (.num 2)], 0, false, 0⟩ : LoopFrame).idx <
      (⟨0, [Item.val (.num 1), Item.val (.num 2)], 0, false, 0⟩ :
        LoopFrame).data.length ∧
    (⟨0, [Item.val (.num 1), Item.val (.num 2)], 0, false, 0⟩ : LoopFrame).idx ≤
      (⟨0, [Item.val (.num 1), Item.val (.num 2)], 0, false, 0⟩ :
        LoopFrame).data.length :=
  C4_cursor_never_exceeds_items env0 flagTrue []
    [⟨"joint_start", "2"⟩, ⟨"joint_end", ""⟩] 1
    ⟨0, [Item.val (.num 1), Item.val (.num 2)], 0, false, 0⟩ (by decide)

/- ## C10: popping a frame leaves the context untouched -/

theorem ctxGet_set_isSome (c : Ctx) (k j : String) (v : Value)
    (h : (ctxGet c j).isSome = true) :
    (ctxGet (ctxSet c k v) j).isSome = true := by
  induction c with
  | nil => simp [ctxGet] at h
  | cons p rest ih =>
    obtain ⟨k', v'⟩ := p
    rw [ctxSet]
    by_cases hk : (k' == k) = true
    · rw [if_pos hk]
      rw [ctxGet] at h ⊢
      by_cases hj : (k == j) = true
      · rw [if_pos hj]; rfl
      · rw [if_neg hj]
        have hne : ¬ ((k' == j) = true) := by
          have hk2 : k' = k := by simpa using hk
          have hj2 : ¬ (k = j) := by simpa using hj
          simp [hk2, hj2]
        rw [if_neg hne] at h
        exact h
    · rw [if_neg hk]
      rw [ctxGet] at h ⊢
      by_cases hj : (k' == j) = true
      · rw [if_pos hj]; rfl
      · rw [if_neg hj] at h ⊢
        exact ih h

theorem ctxGet_update_isSome (kvs : List (String × Value)) :
    ∀ (c : Ctx) (j : String), (ctxGet c j).isSome = true →
    (ctxGet (ctxUpdate c kvs) j).isSome = true := by
  induction kvs with
  | nil => intro c j h; simpa [ctxUpdate] using h
  | cons p rest ih =>
    intro c j h
    rw [ctxUpdate, List.foldl_cons]
    exact ih (ctxSet c p.1 p.2) j (ctxGet_set_isSome c p.1 j p.2 h)

theorem execJob_ctx_mono (env : MEnv) (flag : Nat → Bool)
    (macros : List (String × List Step)) (st : Step) (s : EngineSt) (k : String)
    (h : (ctxGet s.context k).isSome = true) :
    (ctxGet (execJobStep env flag macros st s).context k).isSome = true := by
  simp only [execJobStep]
  by_cases h1 : (st.type == "joint_start") = true
  · rw [if_pos h1]
    cases hd : (jointStartData env st.value).1 with
    | nil => simpa using h
    | cons item tail =>
      simp only []
      split_ifs
      · exact ctxGet_update_isSome _ _ _ h
      · exact ctxGet_set_isSome _ _ _ _ (ctxGet_set_isSome _ _ _ _ h)
      · exact ctxGet_set_isSome _ _ _ _ h
  · rw [if_neg h1]
    by_cases h2 : (st.type == "joint_list") = true
    · rw [if_pos h2]
      cases hd : jointListLines st.value with
      | nil => simpa using h
      | cons first tailLines =>
        simp only []
        split_ifs
        · exact ctxGet_set_isSome _ _ _ _ (ctxGet_set_isSome _ _ _ _ h)
        · exact ctxGet_set_isSome _ _ _ _ h
    · rw [if_neg h2]
      by_cases h3 : (st.type == "joint_end") = true
      · rw [if_pos h3]
        cases hs : s.loop_stack with
        | nil => simpa using h
        | cons curr rest =>
          simp only []
          split_ifs
          · exact ctxGet_update_isSome _ _ _ h
          · exact ctxGet_set_isSome _ _ _ _ (ctxGet_set_isSome _ _ _ _ h)
          · exact ctxGet_set_isSome _ _ _ _ h
          · simpa using h
      · rw [if_neg h3]
        by_cases h4 : (st.type == "call_macro") = true
        · rw [if_pos h4]
          cases hl : lookupStore macros st.value with
          | none => simpa using h
          | some msteps => simpa using h
        · rw [if_neg h4]
          exact h

theorem stepOnce_ctx_mono (env : MEnv) (flag : Nat → Bool)
    (macros : List (String × List Step)) (steps : List Step) (s : EngineSt)
    (k : String) (h : (ctxGet s.context k).isSome = true) :
    (ctxGet (stepOnce env flag macros steps s).context k).isSome = true := by
  simp only [stepOnce]
  split_ifs with hr hp hb
  · exact h
  · simpa using h
  · simpa using h
  · have := execJob_ctx_mono env flag macros (steps.getD s.pc stepDefault)
      { s with eff := ⟨s.eff.checks + 1, s.eff.polls,
          s.eff.events ++ [.flagCheck (flag s.eff.checks),
            .visit s.pc (steps.getD s.pc stepDefault).type s.context]⟩ } k
      (by simpa using h)
    simpa using this

/-- **C10.**  Popping an exhausted loop frame at `joint_end` leaves the
ExecutionContext entirely unchanged - the state changes only by the pop, the
PC advance and the trace (conjunct 1) - and no interpreter step ever removes
a variable from the context: any key bound before a step is still bound after
it (conjunct 2), so `i` and the nested variables keep the inner loop's final
values until a later bind overwrites them. -/
theorem C10_pop_keeps_context (env : MEnv) (flag : Nat → Bool)
    (macros : List (String × List Step)) (steps : List Step) (s s2 : EngineSt)
    (curr : LoopFrame) (rest : List LoopFrame) (k : String)
    (h1 : s.running = true) (h2 : s.pc < steps.length)
    (h3 : flag s.eff.checks = true)
    (hty : (steps.getD s.pc stepDefault).type = "joint_end")
    (hstack : s.loop_stack = curr :: rest)
    (hge : curr.data.length ≤ curr.idx + 1)
    (hk : (ctxGet s2.context k).isSome = true) :
    (stepOnce env flag macros steps s =
      ⟨s.pc + 1, s.context, rest, true,
        ⟨s.eff.checks + 1, s.eff.polls,
         s.eff.events ++ [.flagCheck true, .visit s.pc "joint_end" s.context]⟩⟩) ∧
    (ctxGet (stepOnce env flag macros steps s2).context k).isSome = true :=
  ⟨stepOnce_end_pop env flag macros steps s curr rest h1 h2 h3 hty hstack hge,
   stepOnce_ctx_mono env flag macros steps s2 k hk⟩

theorem C10_pop_keeps_context_witness :
    (stepOnce env0 flagTrue [] [⟨"joint_end", ""⟩]
        ⟨0, [("i", .str "2"), ("i2", .str "2")],
          [⟨0, [Item.val (.str "2")], 0, false, 1⟩], true, eff0⟩ =
      ⟨1, [("i", .str "2"), ("i2", .str "2")], [], true,
        ⟨1, 0, [.flagCheck true,
          .visit 0 "joint_end" [("i", .str "2"), ("i2", .str "2")]]⟩⟩) ∧
    (ctxGet (stepOnce env0 flagTrue [] [⟨"joint_end", ""⟩]
        ⟨0, [("i", .str "2"), ("i2", .str "2")],
          [⟨0, [Item.val (.str "2")], 0, false, 1⟩], true, eff0⟩).context
      "i").isSome = true :=
  C10_pop_keeps_context env0 flagTrue [] [⟨"joint_end", ""⟩]
    ⟨0, [("i", .str "2"), ("i2", .str "2")],
      [⟨0, [Item.val (.str "2")], 0, false, 1⟩], true, eff0⟩
    ⟨0, [("i", .str "2"), ("i2", .str "2")],
      [⟨0, [Item.val (.str "2")], 0, false, 1⟩], true, eff0⟩
    ⟨0, [Item.val (.str "2")], 0, false, 1⟩ [] "i"
    rfl (by decide) rfl rfl rfl (by decide) (by decide)

/- ## C8: cooperative cancellation -/

theorem runMacroGo_cancel (env : MEnv) (flag : Nat → Bool) (c : Ctx) (step : Step)
    (rest : List Step) (idx : Nat) (eff : Eff) (h : flag eff.checks = false) :
    runMacroGo env flag c (step :: rest) idx eff =
      ⟨eff.checks + 1, eff.polls, eff.events ++ [.flagCheck false]⟩ := by
  simp only [runMacroGo]
  rw [if_neg (by simp [h])]
  rw [h]

theorem smartWaitGo_cancel (flag changed : Nat → Bool) (budget : Nat) (eff : Eff)
    (h : flag eff.checks = false) :
    smartWaitGo flag changed (budget + 1) eff =
      ⟨eff.checks + 1, eff.polls, eff.events ++ [.flagCheck false]⟩ := by
  simp only [smartWaitGo]
  rw [if_neg (by simp [h])]
  rw [h]

theorem stepN_halted (env : MEnv) (flag : Nat → Bool)
    (macros : List (String × List Step)) (steps : List Step) (n : Nat)
    (s : EngineSt) (h : s.running = false) :
    stepN env flag macros steps n s = s := by
  induction n with
  | zero => rfl
  | succ m ih =>
    rw [stepN, Function.iterate_succ_apply']
    have hm : (stepOnce env flag macros steps)^[m] s = s := ih
    rw [hm]
    exact stepOnce_not_running env flag macros steps s h

/-- **C8.**  Cancellation is cooperative and takes effect within one step
boundary: (1) if the component runner observes the cleared flag at the
boundary before a step, it breaks at once - that step and every later one is
never dispatched, only the single flag read is recorded; (2) if the assembly
interpreter observes the cleared flag at a step boundary it exits its loop
immediately and (3) an exited run is a fixed point - no further iteration
dispatches anything; (4) the smart wait reads the flag once per poll and
returns immediately when it reads false. -/
theorem C8_cancellation_at_step_boundary (env : MEnv) (flag : Nat → Bool)
    (c : Ctx) (step : Step) (rest : List Step) (idx : Nat) (eff : Eff)
    (macros : List (String × List Step)) (steps : List Step) (s s' : EngineSt)
    (changed : Nat → Bool) (budget : Nat) (effw : Eff) (n : Nat)
    (hm : flag eff.checks = false)
    (hs1 : s.running = true) (hs2 : s.pc < steps.length)
    (hsf : flag s.eff.checks = false)
    (hhalt : s'.running = false)
    (hw : flag effw.checks = false) :
    runMacroGo env flag c (step :: rest) idx eff =
      ⟨eff.checks + 1, eff.polls, eff.events ++ [.flagCheck false]⟩ ∧
    stepOnce env flag macros steps s =
      { s with running := false,
               eff := ⟨s.eff.checks + 1, s.eff.polls,
                       s.eff.events ++ [.flagCheck false]⟩ } ∧
    stepN env flag macros steps n s' = s' ∧
    smartWaitGo flag changed (budget + 1) effw =
      ⟨effw.checks + 1, effw.polls, effw.events ++ [.flagCheck false]⟩ :=
  ⟨runMacroGo_cancel env flag c step rest idx eff hm,
   stepOnce_cancel env flag macros steps s hs1 hs2 hsf,
   stepN_halted env flag macros steps n s' hhalt,
   smartWaitGo_cancel flag changed budget effw hw⟩

theorem C8_cancellation_at_step_boundary_witness :
    runMacroGo env0 (fun _ => false) [] [⟨"key", "a"⟩] 0 eff0 =
      ⟨1, 0, [.flagCheck false]⟩ ∧
    stepOnce env0 (fun _ => false) [] [⟨"key", "a"⟩] ⟨0, [], [], true, eff0⟩ =
      ⟨0, [], [], false, ⟨1, 0, [.flagCheck false]⟩⟩ ∧
    stepN env0 (fun _ => false) [] [⟨"key", "a"⟩] 3 ⟨0, [], [], false, eff0⟩ =
      ⟨0, [], [], false, eff0⟩ ∧
    smartWaitGo (fun _ => false) (fun _ => false) 1 eff0 =
      ⟨1, 0, [.flagCheck false]⟩ :=
  C8_cancellation_at_step_boundary env0 (fun _ => false) [] ⟨"key", "a"⟩ [] 0 eff0
    [] [⟨"key", "a"⟩] ⟨0, [], [], true, eff0⟩ ⟨0, [], [], false, eff0⟩
    (fun _ => false) 0 eff0 3 rfl rfl (by decide) rfl rfl rfl

/- ## Packaging: import (source lines 300-369 and 415-460) -/

/-- Split a character list at a delimiter (keeping empty pieces). -/
def splitOnChar (d : Char) : List Char → List (List Char)
  | [] => [[]]
  | c :: rest =>
    if c = d then [] :: splitOnChar d rest
    else
      match splitOnChar d rest with
      | [] => [[c]]
      | g :: gs => (c :: g) :: gs

/-- `os.path.basename` for POSIX-style paths: the part after the last `/`. -/
def baseName (s : String) : String :=
  ofChars ((splitOnChar '/' s.data).getLastD [])

/-- The observable content of an interchange archive, as the import sees it:
`ok = false` models a corrupt archive (`zipfile`/`extractall` raising);
`metaJson` / `dataJson` are the parsed files when present; `images` the
filenames under `images/` in `os.listdir` order. -/
structure Archive where
  ok : Bool
  metaJson : Option (List (String × Value))
  dataJson : Option (List Step)
  images : List String
deriving Repr, DecidableEq

/-- Result of an import: an exception propagated to the caller, the `None`
return for a missing `data.json`, or the returned
`{"name", "metadata", "data"}` dict. -/
inductive ImpRes where
  | err
  | noData
  | ok (name : String) (meta : List (String × Value)) (data : List Step)
deriving Repr, DecidableEq

/-- Source lines 329-344: for each file under `images/`, copy it into the
local store and point every `click` step whose value's basename matches at
`os.path.join("images", f)` (written POSIX-style). -/
def rewriteImages (imgs : List String) (data : List Step) : List Step :=
  imgs.foldl
    (fun d img =>
      d.map (fun st =>
        if st.type == "click" && (baseName st.value == img) then
          { st with value := "images/" ++ img }
        else st))
    data

/-- Source lines 347-353 / 441-446: resolve a name collision by appending
`_1`, `_2`, ... until unique.  The source's `while` loop terminates because
the store is finite; the model searches the first `size + 1` candidates,
among which one is free by pigeonhole, so the fallback arm is unreachable. -/
def resolveName (base : String) (names : List String) : String :=
  if names.contains base then
    match ((List.range (names.length + 1)).map
        (fun k => base ++ "_" ++ toString (k + 1))).find?
        (fun cand => !names.contains cand) with
    | some cand => cand
    | none => base
  else base

/-- `metadata.get("name", default)` rendered as the stored name. -/
def metaName (meta : List (String × Value)) (deflt : String) : String :=
  match lookupStore meta "name" with
  | some v => v.toStr
  | none => deflt

/-- `import_macro` (source lines 300-369).  `newName` is `none` when the
caller override is falsy.  Returns the result, the store afterwards, whether
the scratch directory was removed (it is on every path: lines 323, 360, 368),
and whether `save_all` ran. -/
def importMacroZip (ar : Archive) (macros : List (String × List Step))
    (newName : Option String) :
    ImpRes × List (String × List Step) × Bool × Bool :=
  if !ar.ok then (.err, macros, true, false)
  else
    let metadata := ar.metaJson.getD []
    match ar.dataJson with
    | none => (.noData, macros, true, false)
    | some data0 =>
      let data := rewriteImages ar.images data0
      let base :=
        match newName with
        | some nm => nm
        | none => metaName metadata "imported_macro"
      let final_name := resolveName base (macros.map (fun p => p.1))
      (.ok final_name metadata data, macros ++ [(final_name, data)], true, true)

/-- `import_job` (source lines 415-460): identical to the part import except
that no image restoration is performed and the default name differs. -/
def importJobZip (ar : Archive) (jobs : List (String × List Step))
    (newName : Option String) :
    ImpRes × List (String × List Step) × Bool × Bool :=
  if !ar.ok then (.err, jobs, true, false)
  else
    let metadata := ar.metaJson.getD []
    match ar.dataJson with
    | none => (.noData, jobs, true, false)
    | some data =>
      let base :=
        match newName with
        | some nm => nm
        | none => metaName metadata "imported_job"
      let final_name := resolveName base (jobs.map (fun p => p.1))
      (.ok final_name metadata data, jobs ++ [(final_name, data)], true, true)

/-- **C6.**  An archive without `data.json` makes the import return `None`
with the store unmodified and nothing persisted (conjunct 1, both stores);
an archive missing only `metadata.json` imports successfully with empty
metadata and is inserted and persisted (conjunct 2); and on every outcome -
error, `None` or success - the scratch directory is removed (conjunct 3). -/
theorem C6_import_missing_files (ar : Archive)
    (macros jobs : List (String × List Step)) (nn : Option String)
    (d : List Step) (hok : ar.ok = true) :
    (ar.dataJson = none →
      importMacroZip ar macros nn = (.noData, macros, true, false) ∧
      importJobZip ar jobs nn = (.noData, jobs, true, false)) ∧
    (ar.dataJson = some d → ar.metaJson = none →
      (∃ nm, importMacroZip ar macros nn =
        (.ok nm [] (rewriteImages ar.images d),
          macros ++ [(nm, rewriteImages ar.images d)], true, true)) ∧
      (∃ nm, importJobZip ar jobs nn =
        (.ok nm [] d, jobs ++ [(nm, d)], true, true))) ∧
    (∀ (ar' : Archive) (st : List (String × List Step)) (nn' : Option String),
      (importMacroZip ar' st nn').2.2.1 = true ∧
      (importJobZip ar' st nn').2.2.1 = true) := by
  refine ⟨?_, ?_, ?_⟩
  · intro hdn
    rw [importMacroZip, importJobZip, if_neg (by simp [hok]), if_neg (by simp [hok]), hdn]
    exact ⟨rfl, rfl⟩
  · intro hds hmn
    rw [importMacroZip, importJobZip, if_neg (by simp [hok]), if_neg (by simp [hok]),
      hds, hmn]
    exact ⟨⟨_, rfl⟩, ⟨_, rfl⟩⟩
  · intro ar' st nn'
    rw [importMacroZip, importJobZip]
    by_cases hok' : ar'.ok = true
    · rw [if_neg (by simp [hok']), if_neg (by simp [hok'])]
      cases ar'.dataJson <;> exact ⟨rfl, rfl⟩
    · rw [if_pos (by simp [Bool.not_eq_true _ ▸ hok']),
        if_pos (by simp [Bool.not_eq_true _ ▸ hok'])]
      exact ⟨rfl, rfl⟩

theorem C6_import_missing_files_witness :
    (importMacroZip ⟨true, some [("name", .str "foo")], none, []⟩ [] none =
      (.noData, [], true, false) ∧
     importJobZip ⟨true, some [("name", .str "foo")], none, []⟩ [] none =
      (.noData, [], true, false)) ∧
    ((∃ nm, importMacroZip ⟨true, none, some [⟨"key", "a"⟩], []⟩ [] none =
        (.ok nm [] (rewriteImages [] [⟨"key", "a"⟩]),
          [] ++ [(nm, rewriteImages [] [⟨"key", "a"⟩])], true, true)) ∧
     (∃ nm, importJobZip ⟨true, none, some [⟨"key", "a"⟩], []⟩ [] none =
        (.ok nm [] [⟨"key", "a"⟩], [] ++ [(nm, [⟨"key", "a"⟩])], true, true))) ∧
    (∀ (ar' : Archive) (st : List (String × List Step)) (nn' : Option String),
      (importMacroZip ar' st nn').2.2.1 = true ∧
      (importJobZip ar' st nn').2.2.1 = true) := by
  refine ⟨?_, ?_, ?_⟩
  · exact (C6_import_missing_files ⟨true, some [("name", .str "foo")], none, []⟩
      [] [] none [] rfl).1 rfl
  · exact (C6_import_missing_files ⟨true, none, some [⟨"key", "a"⟩], []⟩
      [] [] none [⟨"key", "a"⟩] rfl).2.1 rfl rfl
  · exact (C6_import_missing_files ⟨true, none, some [⟨"key", "a"⟩], []⟩
      [] [] none [⟨"key", "a"⟩] rfl).2.2

/- ## Packaging: export (source lines 233-298 and 371-413) -/

/-- Failure injection: each constructor names one source operation that can
raise inside the `try` of `export_macro` / `export_job`. -/
inductive ExpFault where
  | mkdirFail       -- os.makedirs (line 248)
  | writeDataFail   -- writing data.json (line 262)
  | writeMetaFail   -- writing metadata.json (line 266)
  | copyImgFail     -- shutil.copy2 of a referenced image (line 283)
  | zipOpenFail     -- zipfile.ZipFile(output_path, "w") failing to open (line 286)
  | zipWriteFail    -- zipf.write of an entry after the file was created (line 291)
deriving Repr, DecidableEq

/-- File-system operations an export performs, in order. -/
inductive FsOp where
  | mkdirTemp
  | writeFile (path : String)
  | copyImage (src : String)
  | createOutput
  | zipAdd (arcname : String)
  | removeTemp
deriving Repr, DecidableEq

/-- The image files referenced by `click` steps that exist on disk
(source lines 270-275; the Python `set` is modelled in first-seen order). -/
def exportImages (data : List Step) (imgExists : String → Bool) : List String :=
  ((data.filter (fun st => st.type == "click" && imgExists st.value)).map
    (fun st => st.value)).eraseDups

/-- `export_macro` (source lines 233-298) with one injected fault; returns
the Python result (`none` models the re-raised exception of line 298) and
the file-system trace.  A raised fault runs the `except` handler, which
removes the scratch directory and nothing else - in particular it does not
delete a partially written output archive. -/
def exportData (name : String) (steps : List Step)
    (store : List (String × List Step)) : List Step :=
  if !steps.isEmpty then steps else (lookupStore store name).getD []

def exportMacroZip (name : String) (steps : List Step)
    (macros : List (String × List Step)) (imgExists : String → Bool)
    (fault : Option ExpFault) : Option Bool × List FsOp :=
  if (lookupStore macros name).isNone && steps.isEmpty then (some false, [])
  else if (exportData name steps macros).isEmpty then (some false, [])
  else if fault = some .mkdirFail then (none, [])
  else if fault = some .writeDataFail then (none, [.mkdirTemp, .removeTemp])
  else if fault = some .writeMetaFail then
    (none, [.mkdirTemp, .writeFile "data.json", .removeTemp])
  else if fault = some .copyImgFail ∧
      exportImages (exportData name steps macros) imgExists ≠ [] then
    (none, [.mkdirTemp, .writeFile "data.json", .writeFile "metadata.json",
      .removeTemp])
  else if fault = some .zipOpenFail then
    (none, [.mkdirTemp, .writeFile "data.json", .writeFile "metadata.json"] ++
      (exportImages (exportData name steps macros) imgExists).map FsOp.copyImage ++
      [.removeTemp])
  else if fault = some .zipWriteFail then
    (none, [.mkdirTemp, .writeFile "data.json", .writeFile "metadata.json"] ++
      (exportImages (exportData name steps macros) imgExists).map FsOp.copyImage ++
      [.createOutput, .removeTemp])
  else
    (some true,
      [.mkdirTemp, .writeFile "data.json", .writeFile "metadata.json"] ++
      (exportImages (exportData name steps macros) imgExists).map FsOp.copyImage ++
      [.createOutput] ++
      [.zipAdd "data.json", .zipAdd "metadata.json"] ++
      (exportImages (exportData name steps macros) imgExists).map
        (fun i => FsOp.zipAdd ("images/" ++ baseName i)) ++
      [.removeTemp])

/-- `export_job` (source lines 371-413): like the part export but with no
image collection, so an image-copy fault cannot occur there. -/
def exportJobZip (name : String) (steps : List Step)
    (jobs : List (String × List Step)) (fault : Option ExpFault) :
    Option Bool × List FsOp :=
  if (lookupStore jobs name).isNone && steps.isEmpty then (some false, [])
  else if (exportData name steps jobs).isEmpty then (some false, [])
  else if fault = some .mkdirFail then (none, [])
  else if fault = some .writeDataFail then (none, [.mkdirTemp, .removeTemp])
  else if fault = some .writeMetaFail then
    (none, [.mkdirTemp, .writeFile "data.json", .removeTemp])
  else if fault = some .zipOpenFail then
    (none, [.mkdirTemp, .writeFile "data.json", .writeFile "metadata.json",
      .removeTemp])
  else if fault = some .zipWriteFail then
    (none, [.mkdirTemp, .writeFile "data.json", .writeFile "metadata.json",
      .createOutput, .removeTemp])
  else
    (some true, [.mkdirTemp, .writeFile "data.json", .writeFile "metadata.json",
      .createOutput, .zipAdd "data.json", .zipAdd "metadata.json", .removeTemp])

/-- The scratch directory still exists after the call. -/
def scratchRemains (ops : List FsOp) : Bool :=
  ops.contains .mkdirTemp && !(ops.contains .removeTemp)

/-- A file (complete or partial) exists at the requested output path. -/
def outputCreated (ops : List FsOp) : Bool :=
  ops.contains .createOutput

/-- **C7, counterexample.**  An export that fails while writing the archive
(the zip is created at `output_path` directly, line 286; the `except` handler
removes only the scratch directory, line 297) raises AND leaves the partial
archive on disk: the claim that a failed export leaves no output file at the
requested path is false. -/
theorem C7_counterexample :
    (exportMacroZip "m" [⟨"key", "a"⟩] [] (fun _ => false)
      (some .zipWriteFail)).1 = none ∧
    outputCreated (exportMacroZip "m" [⟨"key", "a"⟩] [] (fun _ => false)
      (some .zipWriteFail)).2 = true ∧
    scratchRemains (exportMacroZip "m" [⟨"key", "a"⟩] [] (fun _ => false)
      (some .zipWriteFail)).2 = false := by
  decide

/-- **C7, amended.**  For every run of an export (of a macro or a job),
whatever the outcome - success, early refusal, or a fault injected at any of
the fallible operations - the scratch directory never remains afterwards; a
run that raises (result `none`) with any fault other than a failure while
writing the archive leaves no output file at the requested path; and a run
that raises while writing the archive leaves a partial archive at the
requested path. -/
theorem C7_export_cleanup_amended (name : String) (steps : List Step)
    (macros jobs : List (String × List Step)) (imgExists : String → Bool)
    (fault : Option ExpFault) :
    scratchRemains (exportMacroZip name steps macros imgExists fault).2 = false ∧
    scratchRemains (exportJobZip name steps jobs fault).2 = false ∧
    (fault ≠ some .zipWriteFail →
      (exportMacroZip name steps macros imgExists fault).1 = none →
      outputCreated (exportMacroZip name steps macros imgExists fault).2 = false) ∧
    (fault ≠ some .zipWriteFail →
      (exportJobZip name steps jobs fault).1 = none →
      outputCreated (exportJobZip name steps jobs fault).2 = false) ∧
    ((exportMacroZip name steps macros imgExists fault).1 = none →
      fault = some .zipWriteFail →
      outputCreated (exportMacroZip name steps macros imgExists fault).2 = true) ∧
    ((exportJobZip name steps jobs fault).1 = none →
      fault = some .zipWriteFail →
      outputCreated (exportJobZip name steps jobs fault).2 = true) := by
  refine ⟨?_, ?_, ?_, ?_, ?_, ?_⟩
  · rw [exportMacroZip]
    split_ifs <;> simp [scratchRemains]
  · rw [exportJobZip]
    split_ifs <;> simp [scratchRemains]
  · intro hne hres
    rw [exportMacroZip] at hres ⊢
    split_ifs at hres ⊢ <;>
      first
        | (simp [outputCreated]; done)
        | (simp at hres; done)
        | (exfalso; simp_all)
  · intro hne hres
    rw [exportJobZip] at hres ⊢
    split_ifs at hres ⊢ <;>
      first
        | (simp [outputCreated]; done)
        | (simp at hres; done)
        | (exfalso; simp_all)
  · intro hres hzw
    rw [exportMacroZip] at hres ⊢
    split_ifs at hres ⊢ <;>
      first
        | (simp [outputCreated]; done)
        | (simp at hres; done)
        | (exfalso; simp_all)
  · intro hres hzw
    rw [exportJobZip] at hres ⊢
    split_ifs at hres ⊢ <;>
      first
        | (simp [outputCreated]; done)
        | (simp at hres; done)
        | (exfalso; simp_all)

theorem C7_export_cleanup_amended_witness :
    scratchRemains (exportMacroZip "m" [⟨"key", "a"⟩] []
      (fun _ => false) none).2 = false ∧
    scratchRemains (exportJobZip "m" [⟨"key", "a"⟩] [] none).2 = false ∧
    outputCreated (exportMacroZip "m" [⟨"key", "a"⟩] []
      (fun _ => false) (some .mkdirFail)).2 = false ∧
    outputCreated (exportJobZip "m" [⟨"key", "a"⟩] []
      (some .zipWriteFail)).2 = true :=
  ⟨(C7_export_cleanup_amended "m" [⟨"key", "a"⟩] [] [] (fun _ => false)
      none).1,
   (C7_export_cleanup_amended "m" [⟨"key", "a"⟩] [] [] (fun _ => false)
      none).2.1,
   (C7_export_cleanup_amended "m" [⟨"key", "a"⟩] [] [] (fun _ => false)
      (some .mkdirFail)).2.2.1 (by decide) (by decide),
   (C7_export_cleanup_amended "m" [⟨"key", "a"⟩] [] [] (fun _ => false)
      (some .zipWriteFail)).2.2.2.2.2 (by decide) rfl⟩

end MarketplaceServer
